import Mathlib

set_option maxRecDepth 10000

/-!
Shallow embedding of the framed-messaging core of the repository
(`frame.h`/frame codec + CRC implementation, `reliable.c`, `ringbuf.h`
implementation, and the shared-memory multi-reader ring of `shm.hpp`),
together with theorems settling the frozen claims about it.

Machine integers are modelled as `Nat` with explicit reduction modulo
`2^w` at the points where the C code's fixed-width arithmetic can wrap.
Configuration constants are those of the default (standard, non-MCU)
build: `COMM_CFG_MAX_FRAME_SIZE = 1024`, `COMM_CFG_MAX_WINDOW_SIZE = 16`,
CRC16/CRC32 enabled, little-endian host.
-/

namespace Comm

/-- `2^32`, the modulus of `uint32_t` arithmetic. -/
def U32 : Nat := 4294967296

/-- Reduce to a `uint32_t` value. -/
def u32 (n : Nat) : Nat := n % U32

/-- `uint32_t` subtraction `a - b` (wrapping), for operands already `< 2^32`. -/
def u32sub (a b : Nat) : Nat := (a % U32 + U32 - b % U32) % U32

/-- Byte read `l[i]` (out-of-range reads 0; the code never performs them
on the paths modelled here). -/
def byteAt (l : List Nat) (i : Nat) : Nat := l.getD i 0

/-- Little-endian decode of a 16-bit field at offset `i`. -/
def rd16 (l : List Nat) (i : Nat) : Nat := byteAt l i + 256 * byteAt l (i + 1)

/-- Little-endian decode of a 32-bit field at offset `i`. -/
def rd32 (l : List Nat) (i : Nat) : Nat :=
  byteAt l i + 256 * byteAt l (i + 1) + 65536 * byteAt l (i + 2) +
    16777216 * byteAt l (i + 3)

/-- Little-endian encode of a 32-bit value as four bytes. -/
def le32 (x : Nat) : List Nat :=
  [x % 256, x / 256 % 256, x / 65536 % 256, x / 16777216 % 256]

/-- The 256-entry CRC-16 table bundled in the source (`comm_crc16_table`). -/
def comm_crc16_table : List Nat := [
  0x0000, 0xC0C1, 0xC181, 0x0140, 0xC301, 0x03C0, 0x0280, 0xC241,
  0xC601, 0x06C0, 0x0780, 0xC741, 0x0500, 0xC5C1, 0xC481, 0x0440,
  0xCC01, 0x0CC0, 0x0D80, 0xCD41, 0x0F00, 0xCFC1, 0xCE81, 0x0E40,
  0x0A00, 0xCAC1, 0xCB81, 0x0B40, 0xC901, 0x09C0, 0x0880, 0xC841,
  0xD801, 0x18C0, 0x1980, 0xD941, 0x1B00, 0xDBC1, 0xDA81, 0x1A40,
  0x1E00, 0xDEC1, 0xDF81, 0x1F40, 0xDD01, 0x1DC0, 0x1C80, 0xDC41,
  0x1400, 0xD4C1, 0xD581, 0x1540, 0xD701, 0x17C0, 0x1680, 0xD641,
  0xD201, 0x12C0, 0x1380, 0xD341, 0x1100, 0xD1C1, 0xD081, 0x1040,
  0xF001, 0x30C0, 0x3180, 0xF141, 0x3300, 0xF3C1, 0xF281, 0x3240,
  0x3600, 0xF6C1, 0xF781, 0x3740, 0xF501, 0x35C0, 0x3480, 0xF441,
  0x3C00, 0xFCC1, 0xFD81, 0x3D40, 0xFF01, 0x3FC0, 0x3E80, 0xFE41,
  0xFA01, 0x3AC0, 0x3B80, 0xFB41, 0x3900, 0xF9C1, 0xF881, 0x3840,
  0x2800, 0xE8C1, 0xE981, 0x2940, 0xEB01, 0x2BC0, 0x2A80, 0xEA41,
  0xEE01, 0x2EC0, 0x2F80, 0xEF41, 0x2D00, 0xEDC1, 0xEC81, 0x2C40,
  0xE401, 0x24C0, 0x2580, 0xE541, 0x2700, 0xE7C1, 0xE681, 0x2640,
  0x2200, 0xE2C1, 0xE381, 0x2340, 0xE101, 0x21C0, 0x2080, 0xE041,
  0xA001, 0x60C0, 0x6180, 0xA141, 0x6300, 0xA3C1, 0xA281, 0x6240,
  0x6600, 0xA6C1, 0xA781, 0x6740, 0xA501, 0x65C0, 0x6480, 0xA441,
  0x6C00, 0xACC1, 0xAD81, 0x6D40, 0xAF01, 0x6FC0, 0x6E80, 0xAE41,
  0xAA01, 0x6AC0, 0x6B80, 0xAB41, 0x6900, 0xA9C1, 0xA881, 0x6840,
  0x7800, 0xB8C1, 0xB981, 0x7940, 0xBB01, 0x7BC0, 0x7A80, 0xBA41,
  0xBE01, 0x7EC0, 0x7F80, 0xBF41, 0x7D00, 0xBDC1, 0xBC81, 0x7C40,
  0xB401, 0x74C0, 0x7580, 0xB541, 0x7700, 0xB7C1, 0xB681, 0x7640,
  0x7200, 0xB2C1, 0xB381, 0x7340, 0xB101, 0x71C0, 0x7080, 0xB041,
  0x5000, 0x90C1, 0x9181, 0x5140, 0x9301, 0x53C0, 0x5280, 0x9241,
  0x9601, 0x56C0, 0x5780, 0x9741, 0x5500, 0x95C1, 0x9481, 0x5440,
  0x9C01, 0x5CC0, 0x5D80, 0x9D41, 0x5F00, 0x9FC1, 0x9E81, 0x5E40,
  0x5A00, 0x9AC1, 0x9B81, 0x5B40, 0x9901, 0x59C0, 0x5880, 0x9841,
  0x8801, 0x48C0, 0x4980, 0x8941, 0x4B00, 0x8BC1, 0x8A81, 0x4A40,
  0x4E00, 0x8EC1, 0x8F81, 0x4F40, 0x8D01, 0x4DC0, 0x4C80, 0x8C41,
  0x4400, 0x84C1, 0x8581, 0x4540, 0x8701, 0x47C0, 0x4680, 0x8641,
  0x8201, 0x42C0, 0x4380, 0x8341, 0x4100, 0x81C1, 0x8081, 0x4040]

/-- The 256-entry CRC-32 table bundled in the source (`comm_crc32_table`). -/
def comm_crc32_table : List Nat := [
  0x00000000, 0x77073096, 0xEE0E612C, 0x990951BA, 0x076DC419, 0x706AF48F, 0xE963A535, 0x9E6495A3,
  0x0EDB8832, 0x79DCB8A4, 0xE0D5E91E, 0x97D2D988, 0x09B64C2B, 0x7EB17CBD, 0xE7B82D07, 0x90BF1D91,
  0x1DB71064, 0x6AB020F2, 0xF3B97148, 0x84BE41DE, 0x1ADAD47D, 0x6DDDE4EB, 0xF4D4B551, 0x83D385C7,
  0x136C9856, 0x646BA8C0, 0xFD62F97A, 0x8A65C9EC, 0x14015C4F, 0x63066CD9, 0xFA0F3D63, 0x8D080DF5,
  0x3B6E20C8, 0x4C69105E, 0xD56041E4, 0xA2677172, 0x3C03E4D1, 0x4B04D447, 0xD20D85FD, 0xA50AB56B,
  0x35B5A8FA, 0x42B2986C, 0xDBBBC9D6, 0xACBCF940, 0x32D86CE3, 0x45DF5C75, 0xDCD60DCF, 0xABD13D59,
  0x26D930AC, 0x51DE003A, 0xC8D75180, 0xBFD06116, 0x21B4F4B5, 0x56B3C423, 0xCFBA9599, 0xB8BDA50F,
  0x2802B89E, 0x5F058808, 0xC60CD9B2, 0xB10BE924, 0x2F6F7C87, 0x58684C11, 0xC1611DAB, 0xB6662D3D,
  0x76DC4190, 0x01DB7106, 0x98D220BC, 0xEFD5102A, 0x71B18589, 0x06B6B51F, 0x9FBFE4A5, 0xE8B8D433,
  0x7807C9A2, 0x0F00F934, 0x9609A88E, 0xE10E9818, 0x7F6A0DBB, 0x086D3D2D, 0x91646C97, 0xE6635C01,
  0x6B6B51F4, 0x1C6C6162, 0x856530D8, 0xF262004E, 0x6C0695ED, 0x1B01A57B, 0x8208F4C1, 0xF50FC457,
  0x65B0D9C6, 0x12B7E950, 0x8BBEB8EA, 0xFCB9887C, 0x62DD1DDF, 0x15DA2D49, 0x8CD37CF3, 0xFBD44C65,
  0x4DB26158, 0x3AB551CE, 0xA3BC0074, 0xD4BB30E2, 0x4ADFA541, 0x3DD895D7, 0xA4D1C46D, 0xD3D6F4FB,
  0x4369E96A, 0x346ED9FC, 0xAD678846, 0xDA60B8D0, 0x44042D73, 0x33031DE5, 0xAA0A4C5F, 0xDD0D7CC9,
  0x5005713C, 0x270241AA, 0xBE0B1010, 0xC90C2086, 0x5768B525, 0x206F85B3, 0xB966D409, 0xCE61E49F,
  0x5EDEF90E, 0x29D9C998, 0xB0D09822, 0xC7D7A8B4, 0x59B33D17, 0x2EB40D81, 0xB7BD5C3B, 0xC0BA6CAD,
  0xEDB88320, 0x9ABFB3B6, 0x03B6E20C, 0x74B1D29A, 0xEAD54739, 0x9DD277AF, 0x04DB2615, 0x73DC1683,
  0xE3630B12, 0x94643B84, 0x0D6D6A3E, 0x7A6A5AA8, 0xE40ECF0B, 0x9309FF9D, 0x0A00AE27, 0x7D079EB1,
  0xF00F9344, 0x8708A3D2, 0x1E01F268, 0x6906C2FE, 0xF762575D, 0x806567CB, 0x196C3671, 0x6E6B06E7,
  0xFED41B76, 0x89D32BE0, 0x10DA7A5A, 0x67DD4ACC, 0xF9B9DF6F, 0x8EBEEFF9, 0x17B7BE43, 0x60B08ED5,
  0xD6D6A3E8, 0xA1D1937E, 0x38D8C2C4, 0x4FDFF252, 0xD1BB67F1, 0xA6BC5767, 0x3FB506DD, 0x48B2364B,
  0xD80D2BDA, 0xAF0A1B4C, 0x36034AF6, 0x41047A60, 0xDF60EFC3, 0xA867DF55, 0x316E8EEF, 0x4669BE79,
  0xCB61B38C, 0xBC66831A, 0x256FD2A0, 0x5268E236, 0xCC0C7795, 0xBB0B4703, 0x220216B9, 0x5505262F,
  0xC5BA3BBE, 0xB2BD0B28, 0x2BB45A92, 0x5CB36A04, 0xC2D7FFA7, 0xB5D0CF31, 0x2CD99E8B, 0x5BDEAE1D,
  0x9B64C2B0, 0xEC63F226, 0x756AA39C, 0x026D930A, 0x9C0906A9, 0xEB0E363F, 0x72076785, 0x05005713,
  0x95BF4A82, 0xE2B87A14, 0x7BB12BAE, 0x0CB61B38, 0x92D28E9B, 0xE5D5BE0D, 0x7CDCEFB7, 0x0BDBDF21,
  0x86D3D2D4, 0xF1D4E242, 0x68DDB3F8, 0x1FDA836E, 0x81BE16CD, 0xF6B9265B, 0x6FB077E1, 0x18B74777,
  0x88085AE6, 0xFF0F6A70, 0x66063BCA, 0x11010B5C, 0x8F659EFF, 0xF862AE69, 0x616BFFD3, 0x166CCF45,
  0xA00AE278, 0xD70DD2EE, 0x4E048354, 0x3903B3C2, 0xA7672661, 0xD06016F7, 0x4969474D, 0x3E6E77DB,
  0xAED16A4A, 0xD9D65ADC, 0x40DF0B66, 0x37D83BF0, 0xA9BCAE53, 0xDEBB9EC5, 0x47B2CF7F, 0x30B5FFE9,
  0xBDBDF21C, 0xCABAC28A, 0x53B39330, 0x24B4A3A6, 0xBAD03605, 0xCDD70693, 0x54DE5729, 0x23D967BF,
  0xB3667A2E, 0xC4614AB8, 0x5D681B02, 0x2A6F2B94, 0xB40BBE37, 0xC30C8EA1, 0x5A05DF1B, 0x2D02EF8D]

/-- One step of `comm_crc16`'s loop:
`crc = (crc << 8) ^ comm_crc16_table[((crc >> 8) ^ data[i]) & 0xFF]`,
on `uint16_t`. -/
def crc16_step (crc b : Nat) : Nat :=
  ((crc <<< 8) % 65536) ^^^ comm_crc16_table.getD (((crc >>> 8) ^^^ b) &&& 255) 0

/-- `comm_crc16`: initial value `0xFFFF`, table update, no final XOR. -/
def comm_crc16 (data : List Nat) : Nat := data.foldl crc16_step 0xFFFF

/-- One step of `comm_crc32`'s loop:
`crc = comm_crc32_table[(crc ^ data[i]) & 0xFF] ^ (crc >> 8)`. -/
def crc32_step (crc b : Nat) : Nat :=
  comm_crc32_table.getD ((crc ^^^ b) &&& 255) 0 ^^^ (crc >>> 8)

/-- The running CRC-32 state after consuming `data` from state `crc`. -/
def crc32_run (crc : Nat) (data : List Nat) : Nat := data.foldl crc32_step crc

/-- `comm_crc32`: initial value `0xFFFFFFFF`, table update, final bitwise
complement (on `uint32_t`, `~crc = crc ^ 0xFFFFFFFF`). -/
def comm_crc32 (data : List Nat) : Nat := crc32_run 0xFFFFFFFF data ^^^ 0xFFFFFFFF

/-! ## Frame header and codec (`frame.h`, frame codec translation unit) -/

/-- `comm_frame_header_t`, a packed 32-byte struct.  Field order and byte
offsets follow the source: `magic`@0, `version`@2, `flags`@3, `length`@4,
`src_endpoint`@8, `dst_endpoint`@12, `sequence`@16, `cmd_type`@20,
`header_crc`@24, `payload_crc`@28. -/
structure FrameHeader where
  magic : Nat
  version : Nat
  flags : Nat
  length : Nat
  src_endpoint : Nat
  dst_endpoint : Nat
  sequence : Nat
  cmd_type : Nat
  header_crc : Nat
  payload_crc : Nat
deriving Repr, DecidableEq

/-- Well-formedness: every field fits its declared C width. -/
def FrameHeader.Wf (h : FrameHeader) : Prop :=
  h.magic < 65536 ∧ h.version < 256 ∧ h.flags < 256 ∧ h.length < U32 ∧
  h.src_endpoint < U32 ∧ h.dst_endpoint < U32 ∧ h.sequence < U32 ∧
  h.cmd_type < U32 ∧ h.header_crc < U32 ∧ h.payload_crc < U32

instance (h : FrameHeader) : Decidable h.Wf := by unfold FrameHeader.Wf; infer_instance

/-- Bytes 0..23 of the packed little-endian header image (the fields
before `header_crc`). -/
def headerFields24 (h : FrameHeader) : List Nat :=
  [h.magic % 256, h.magic / 256 % 256,
   h.version % 256, h.flags % 256,
   h.length % 256, h.length / 256 % 256, h.length / 65536 % 256, h.length / 16777216 % 256,
   h.src_endpoint % 256, h.src_endpoint / 256 % 256, h.src_endpoint / 65536 % 256, h.src_endpoint / 16777216 % 256,
   h.dst_endpoint % 256, h.dst_endpoint / 256 % 256, h.dst_endpoint / 65536 % 256, h.dst_endpoint / 16777216 % 256,
   h.sequence % 256, h.sequence / 256 % 256, h.sequence / 65536 % 256, h.sequence / 16777216 % 256,
   h.cmd_type % 256, h.cmd_type / 256 % 256, h.cmd_type / 65536 % 256, h.cmd_type / 16777216 % 256]

/-- The little-endian 32-byte wire image of a header (the packed struct as
written by `memcpy` on a little-endian host; each byte is the field's
corresponding octet): bytes 0..23 are the identity fields, bytes 24..27
`header_crc`, bytes 28..31 `payload_crc`. -/
def headerBytes (h : FrameHeader) : List Nat :=
  headerFields24 h ++ le32 h.header_crc ++ le32 h.payload_crc

/-- Reading the packed struct back out of a byte buffer (the field
conversions at the top of `comm_frame_decode`). -/
def parseHeader (src : List Nat) : FrameHeader where
  magic := rd16 src 0
  version := byteAt src 2
  flags := byteAt src 3
  length := rd32 src 4
  src_endpoint := rd32 src 8
  dst_endpoint := rd32 src 12
  sequence := rd32 src 16
  cmd_type := rd32 src 20
  header_crc := rd32 src 24
  payload_crc := rd32 src 28

/-- `comm_frame_validate` (null check omitted; headers are values here).
`COMM_FRAME_MAGIC = 0xA55A`, `COMM_FRAME_VERSION = 1`,
`COMM_FRAME_HEADER_SIZE = 32`, `COMM_CFG_MAX_FRAME_SIZE = 1024`. -/
def comm_frame_validate (header : FrameHeader) (receivedLen : Nat) : Int :=
  if header.magic ≠ 0xA55A then -1
  else if header.version ≠ 1 then -1
  else if header.length < 32 then -1
  else if header.length > 1024 then -1
  else if receivedLen ≠ header.length then -1
  else 0

/-- `comm_frame_encode`: the result code (`(int)total_len` on success,
`COMM_ERR_NOMEM = -2` if the destination is too small) and the bytes
written.  The header copy gets `length := 32 + |payload|` and
`payload_crc := crc32(payload)` (0 for an empty payload); `header_crc` is
the CRC-32 of the first 28 bytes of the little-endian header image with
the `header_crc` field zeroed. -/
def comm_frame_encode (dstSize : Nat) (payload : List Nat) (header : FrameHeader) :
    Int × List Nat :=
  let totalLen := 32 + payload.length
  if dstSize < totalLen then (-2, [])
  else
    let pcrc := if payload.length > 0 then comm_crc32 payload else 0
    let hdr0 : FrameHeader :=
      { header with length := totalLen, payload_crc := pcrc, header_crc := 0 }
    let hcrc := comm_crc32 ((headerBytes hdr0).take 28)
    ((totalLen : Int), headerBytes { hdr0 with header_crc := hcrc } ++ payload)

/-- The outputs of `comm_frame_decode`: the return code, the header written
through `header`, and the payload bytes / length written through
`payload` / `payload_len` (empty/zero on the error paths before they are
written). -/
structure DecodeOut where
  code : Int
  header : FrameHeader
  payload : List Nat
  payloadLen : Nat
deriving Repr, DecidableEq

/-- The all-zero header (used for the early-return path before the header
output is written). -/
def zeroHeader : FrameHeader := ⟨0, 0, 0, 0, 0, 0, 0, 0, 0, 0⟩

/-- `comm_frame_decode` on a source buffer of `srcLen` bytes and a payload
buffer of `payloadCap` bytes.  Error codes: `COMM_ERR_INVALID = -1`,
`COMM_ERR_NOMEM = -2`, `COMM_ERR_CRC = -4`. -/
def comm_frame_decode (src : List Nat) (srcLen : Nat) (payloadCap : Nat) : DecodeOut :=
  if srcLen < 32 then ⟨-1, zeroHeader, [], 0⟩
  else if comm_frame_validate (parseHeader src) srcLen ≠ 0 then
    ⟨-1, parseHeader src, [], 0⟩
  else if srcLen < (parseHeader src).length then ⟨-1, parseHeader src, [], 0⟩
  -- header CRC over the first 28 received bytes with bytes 24..27 zeroed
  else if comm_crc32 (src.take 24 ++ [0, 0, 0, 0]) ≠ rd32 src 24 then
    ⟨-4, parseHeader src, [], 0⟩
  else if 0 < (parseHeader src).length - 32 then
    if payloadCap < (parseHeader src).length - 32 then ⟨-2, parseHeader src, [], 0⟩
    else if comm_crc32 ((src.drop 32).take ((parseHeader src).length - 32)) ≠
        (parseHeader src).payload_crc then
      ⟨-4, parseHeader src, (src.drop 32).take ((parseHeader src).length - 32), 0⟩
    else
      ⟨0, parseHeader src, (src.drop 32).take ((parseHeader src).length - 32),
       (parseHeader src).length - 32⟩
  else ⟨0, parseHeader src, [], 0⟩

/-! ## Reliable delivery context (`reliable.c`)

The context's scalar fields and bitmasks are modelled; the retransmission
byte caches `tx_frames[]` / `tx_timestamp[]` are omitted because none of
the operations embedded below (`comm_reliable_on_receive`,
`comm_reliable_on_ack`) reads or writes them. -/

/-- `comm_reliable_ctx_t` (scalar part).  All fields are `uint32_t` except
`window_size` (`uint8_t`). -/
structure ReliableCtx where
  next_tx_seq : Nat
  next_rx_seq : Nat
  tx_window_base : Nat
  rx_window_base : Nat
  window_size : Nat
  rto : Nat
  tx_pending_mask : Nat
  rx_received_mask : Nat
  stat_retransmits : Nat
  stat_duplicates : Nat
  stat_out_of_order : Nat
deriving Repr, DecidableEq

/-- `comm_reliable_init`: zero the context, clamp the `uint8_t` window size
at `COMM_CFG_MAX_WINDOW_SIZE = 16` and then at 32 (the second clamp is
inert with the default configuration), set `rto = 1000`.  There is no
lower clamp: an argument of 0 leaves `window_size = 0`. -/
def comm_reliable_init (windowSize : Nat) : ReliableCtx :=
  let ws0 := windowSize % 256
  let ws1 := if ws0 > 16 then 16 else ws0
  let ws2 := if ws1 > 32 then 32 else ws1
  { next_tx_seq := 0, next_rx_seq := 0, tx_window_base := 0, rx_window_base := 0,
    window_size := ws2, rto := 1000, tx_pending_mask := 0, rx_received_mask := 0,
    stat_retransmits := 0, stat_duplicates := 0, stat_out_of_order := 0 }

/-- `comm_ack_build`: a fresh zeroed header with `COMM_FLAG_ACK = 0x10`,
`length = 32`, `sequence = ack_seq`, swapped endpoints, and `header_crc`
computed over the first 28 bytes of its little-endian image with the CRC
field zeroed.  (The C function returns `COMM_OK` unconditionally for
non-null arguments; only the built header is modelled.) -/
def comm_ack_build (srcHdr : FrameHeader) (ackSeq : Nat) : FrameHeader :=
  let base : FrameHeader :=
    { magic := 0xA55A, version := 1, flags := 16, length := 32,
      src_endpoint := srcHdr.dst_endpoint, dst_endpoint := srcHdr.src_endpoint,
      sequence := ackSeq, cmd_type := 0, header_crc := 0, payload_crc := 0 }
  { base with header_crc := comm_crc32 ((headerBytes base).take 28) }

/-- The first `while` of `comm_reliable_on_receive` (catch-up over buffered
out-of-order frames): while `next_rx_seq - rx_window_base < 32` and that
bit of `rx_received_mask` is set, clear the bit and advance `next_rx_seq`.
The offset grows by one per iteration and the loop requires it to stay
below 32, so 33 fuel always runs the loop to its natural exit. -/
def rxCatchUp (base : Nat) : Nat → Nat → Nat → Nat × Nat
  | 0, nextRx, mask => (nextRx, mask)
  | fuel + 1, nextRx, mask =>
    let off := u32sub nextRx base
    if off < 32 ∧ mask.testBit off then
      rxCatchUp base fuel (u32 (nextRx + 1)) (mask &&& (0xFFFFFFFF ^^^ (1 <<< off)))
    else (nextRx, mask)

/-- The second `while` of `comm_reliable_on_receive` (window advance):
while `next_rx_seq - rx_window_base >= window_size` (a `uint32_t`
comparison), advance `rx_window_base` and right-shift `rx_received_mask`.
`none` means the fuel ran out with the guard still true; for
`windowSize ≥ 1` the distance shrinks by one per iteration, so the fuel
chosen by the caller (`distance + 1`) always suffices, while for
`windowSize = 0` the guard never becomes false and the C loop runs
forever. -/
def rxAdvance (nextRx windowSize : Nat) : Nat → Nat → Nat → Option (Nat × Nat)
  | 0, base, mask =>
    if windowSize ≤ u32sub nextRx base then none else some (base, mask)
  | fuel + 1, base, mask =>
    if windowSize ≤ u32sub nextRx base then
      rxAdvance nextRx windowSize fuel (u32 (base + 1)) (mask >>> 1)
    else some (base, mask)

/-- `comm_reliable_on_receive`.  The result is `none` when the C code fails
to terminate (the `window_size = 0` window-advance loop); otherwise it is
the return code, the updated context, and the ACK header written through
`ack_header` (`none` when the C code returns without writing one). -/
def comm_reliable_on_receive (ctx : ReliableCtx) (header : FrameHeader) :
    Option (Int × ReliableCtx × Option FrameHeader) :=
  let recvSeq := u32 header.sequence
  if recvSeq = ctx.next_rx_seq then
    let nextRx1 := u32 (ctx.next_rx_seq + 1)
    let cu := rxCatchUp ctx.rx_window_base 33 nextRx1 ctx.rx_received_mask
    let fuel := u32sub cu.1 ctx.rx_window_base + 1
    match rxAdvance cu.1 ctx.window_size fuel ctx.rx_window_base cu.2 with
    | none => none
    | some (base, mask) =>
      let ctx1 := { ctx with next_rx_seq := cu.1, rx_window_base := base,
                             rx_received_mask := mask }
      some (0, ctx1, some (comm_ack_build header (u32sub ctx1.next_rx_seq 1)))
  else if ctx.next_rx_seq < recvSeq then
    let seqOff := u32sub recvSeq ctx.rx_window_base
    if seqOff < ctx.window_size ∧ seqOff < 32 then
      if ¬ ctx.rx_received_mask.testBit seqOff then
        let ctx1 := { ctx with stat_out_of_order := u32 (ctx.stat_out_of_order + 1),
                               rx_received_mask := ctx.rx_received_mask ||| (1 <<< seqOff) }
        some (0, ctx1, some (comm_ack_build header (u32sub ctx1.next_rx_seq 1)))
      else
        let ctx1 := { ctx with stat_duplicates := u32 (ctx.stat_duplicates + 1) }
        some (0, ctx1, some (comm_ack_build header (u32sub ctx1.next_rx_seq 1)))
    else
      some (-1, ctx, none)
  else
    let ctx1 := { ctx with stat_duplicates := u32 (ctx.stat_duplicates + 1) }
    some (0, ctx1, some (comm_ack_build header (u32sub ctx1.next_rx_seq 1)))

/-- `comm_reliable_on_ack`: reject headers without `COMM_FLAG_ACK = 0x10`;
treat `sequence < tx_window_base` as a stale ACK (no state change);
otherwise shift the pending mask and advance the window base by
`min(sequence - tx_window_base + 1, 32)`, the difference taken in
`uint32_t` arithmetic.  `ackShift` is that shift amount
(`shift = ack_seq - tx_window_base + 1`, capped at 32). -/
def ackShift (ctx : ReliableCtx) (ackHeader : FrameHeader) : Nat :=
  if u32 (u32sub (u32 ackHeader.sequence) ctx.tx_window_base + 1) > 32 then 32
  else u32 (u32sub (u32 ackHeader.sequence) ctx.tx_window_base + 1)

def comm_reliable_on_ack (ctx : ReliableCtx) (ackHeader : FrameHeader) :
    Int × ReliableCtx :=
  if ackHeader.flags &&& 16 = 0 then (-1, ctx)
  else if u32 ackHeader.sequence < ctx.tx_window_base then (0, ctx)
  else
    (0, { ctx with tx_pending_mask := ctx.tx_pending_mask >>> ackShift ctx ackHeader,
                   tx_window_base := u32 (ctx.tx_window_base + ackShift ctx ackHeader) })

/-! ## Byte ring buffer (`ringbuf.h` and its translation unit)

The critical-section macros are no-ops for the sequential semantics
modelled here (the claims are about the single-caller behaviour). -/

/-- `comm_ringbuf_t`: backing byte region, its `size`, and the producer /
consumer indices. -/
structure Ringbuf where
  size : Nat
  head : Nat
  tail : Nat
  buffer : List Nat
deriving Repr, DecidableEq

/-- `comm_ringbuf_init` on a non-null buffer of `size > 0` bytes (for
`size = 0` or null arguments the C function leaves the struct untouched
and is not modelled). -/
def comm_ringbuf_init (buffer : List Nat) (size : Nat) : Ringbuf :=
  { size := size, head := 0, tail := 0, buffer := buffer }

/-- `comm_ringbuf_available`. -/
def comm_ringbuf_available (rb : Ringbuf) : Nat :=
  if rb.tail ≤ rb.head then rb.head - rb.tail else rb.size - rb.tail + rb.head

/-- `comm_ringbuf_free_space` (`size - 1 - available`; callers keep
`available ≤ size - 1`, where the `size_t` subtraction is exact). -/
def comm_ringbuf_free_space (rb : Ringbuf) : Nat :=
  rb.size - 1 - comm_ringbuf_available rb

/-- `comm_ringbuf_is_empty`. -/
def comm_ringbuf_is_empty (rb : Ringbuf) : Bool := rb.head = rb.tail

/-- `comm_ringbuf_is_full`. -/
def comm_ringbuf_is_full (rb : Ringbuf) : Bool := (rb.head + 1) % rb.size = rb.tail

/-- `comm_ringbuf_put`: success flag and updated state. -/
def comm_ringbuf_put (rb : Ringbuf) (data : Nat) : Bool × Ringbuf :=
  let nextHead := (rb.head + 1) % rb.size
  if nextHead = rb.tail then (false, rb)
  else (true, { rb with buffer := rb.buffer.set rb.head (data % 256), head := nextHead })

/-- `comm_ringbuf_get`: success flag, the byte read, and updated state. -/
def comm_ringbuf_get (rb : Ringbuf) : Bool × Nat × Ringbuf :=
  if rb.head = rb.tail then (false, 0, rb)
  else (true, rb.buffer.getD rb.tail 0, { rb with tail := (rb.tail + 1) % rb.size })

/-- `memcpy(buf + pos, data, |data|)` on the byte region. -/
def copyChunk : List Nat → Nat → List Nat → List Nat
  | buf, _, [] => buf
  | buf, pos, d :: rest => copyChunk (buf.set pos (d % 256)) (pos + 1) rest

/-- `comm_ringbuf_write`: number of bytes written and updated state, with
the source's two-segment wrap copy. -/
def comm_ringbuf_write (rb : Ringbuf) (data : List Nat) (len : Nat) : Nat × Ringbuf :=
  let free := comm_ringbuf_free_space rb
  let toWrite := min len free
  let dataW := (data.take len).take toWrite
  let spaceTillEnd := rb.size - rb.head
  if toWrite ≤ spaceTillEnd then
    (toWrite, { rb with buffer := copyChunk rb.buffer rb.head dataW,
                        head := (rb.head + toWrite) % rb.size })
  else
    (toWrite, { rb with
      buffer := copyChunk (copyChunk rb.buffer rb.head (dataW.take spaceTillEnd)) 0
        (dataW.drop spaceTillEnd),
      head := toWrite - spaceTillEnd })

/-- `comm_ringbuf_read`: number of bytes read, the bytes, and updated
state. -/
def comm_ringbuf_read (rb : Ringbuf) (len : Nat) : Nat × List Nat × Ringbuf :=
  let available := comm_ringbuf_available rb
  let toRead := min len available
  if toRead = 0 then (0, [], rb)
  else
    let spaceTillEnd := rb.size - rb.tail
    if toRead ≤ spaceTillEnd then
      (toRead, (rb.buffer.drop rb.tail).take toRead,
       { rb with tail := (rb.tail + toRead) % rb.size })
    else
      (toRead, (rb.buffer.drop rb.tail).take spaceTillEnd ++
         rb.buffer.take (toRead - spaceTillEnd),
       { rb with tail := toRead - spaceTillEnd })

/-- `comm_ringbuf_peek`: the byte-by-byte wrapping loop, no state change. -/
def comm_ringbuf_peek (rb : Ringbuf) (len : Nat) : Nat × List Nat :=
  let available := comm_ringbuf_available rb
  let toPeek := min len available
  (toPeek, (List.range toPeek).map (fun i => rb.buffer.getD ((rb.tail + i) % rb.size) 0))

/-- `comm_ringbuf_clear`. -/
def comm_ringbuf_clear (rb : Ringbuf) : Ringbuf := { rb with head := 0, tail := 0 }

/-- One user-visible ring-buffer operation. -/
inductive RingOp where
  | put (b : Nat)
  | get
  | write (data : List Nat) (len : Nat)
  | read (len : Nat)
  | peek (len : Nat)
  | clear
deriving Repr, DecidableEq

/-- The state after one operation (results discarded). -/
def ringStep (rb : Ringbuf) : RingOp → Ringbuf
  | .put b => (comm_ringbuf_put rb b).2
  | .get => (comm_ringbuf_get rb).2.2
  | .write data len => (comm_ringbuf_write rb data len).2
  | .read len => (comm_ringbuf_read rb len).2.2
  | .peek _ => rb
  | .clear => comm_ringbuf_clear rb

/-- The state after a sequence of operations. -/
def ringRun (rb : Ringbuf) (ops : List RingOp) : Ringbuf := ops.foldl ringStep rb

/-- `n` consecutive `comm_ringbuf_put` calls (payload byte 0). -/
def ringPutN (rb : Ringbuf) : Nat → Ringbuf
  | 0 => rb
  | n + 1 => (comm_ringbuf_put (ringPutN rb n) 0).2

/-! ## Shared-memory multi-reader ring (`shm.hpp`, `ShmMultiReaderRingBuffer`)

Mutex acquisition and atomic orderings are serialisation devices; the
claims are about the state transition each (serialised) `write` / `read`
performs, which is modelled directly.  `std::time` results enter as
explicit timestamp arguments. -/

/-- One `ReaderState` slot. -/
structure ShmReader where
  read_pos : Nat
  active : Bool
  reader_id : Nat
  last_access_time : Nat
deriving Repr, DecidableEq

/-- `ShmMultiReaderRingBuffer`: write position, capacity (a power of two),
`mask = capacity - 1`, the reader slots, and the byte region. -/
structure ShmRing where
  write_pos : Nat
  capacity : Nat
  mask : Nat
  readers : List ShmReader
  data : List Nat
deriving Repr, DecidableEq

/-- `get_slowest_reader_pos`: minimum `read_pos` over active slots,
starting from (and defaulting to) `write_pos`. -/
def get_slowest_reader_pos (rb : ShmRing) : Nat :=
  rb.readers.foldl
    (fun minPos r => if r.active ∧ r.read_pos < minPos then r.read_pos else minPos)
    rb.write_pos

/-- `available_write` (`capacity - (write_pos - slowest)` in `uint32_t`
arithmetic). -/
def available_write (rb : ShmRing) : Nat :=
  u32sub rb.capacity (u32sub rb.write_pos (get_slowest_reader_pos rb))

/-- The source's two-segment wrap copy of `bytes` into the region at
ring position `pos`. -/
def writeWrap (buf : List Nat) (cap mask pos : Nat) (bytes : List Nat) : List Nat :=
  let firstPart := min bytes.length (cap - (pos &&& mask))
  copyChunk (copyChunk buf (pos &&& mask) (bytes.take firstPart)) 0 (bytes.drop firstPart)

/-- The source's two-segment wrap copy of `n` bytes out of the region at
ring position `pos`. -/
def readWrap (buf : List Nat) (cap mask pos n : Nat) : List Nat :=
  let firstPart := min n (cap - (pos &&& mask))
  (buf.drop (pos &&& mask)).take firstPart ++ buf.take (n - firstPart)

/-- The 24-byte `ShmMessageHeader` record image
(`{length, sender_id, sequence, timestamp, crc32 = 0, flags = 0,
reserved = 0}`). -/
def shmHeaderBytes (len senderId seq tstamp : Nat) : List Nat :=
  le32 len ++ le32 senderId ++ le32 seq ++ le32 tstamp ++ le32 0 ++ [0, 0, 0, 0]

/-- `ShmMultiReaderRingBuffer::write` (under the endpoint mutex): reject
when `24 + len` exceeds `available_write`; otherwise write the record
header (sequence = current write position) and the payload with wrap
copies and publish the advanced `write_pos`. -/
def shm_write (rb : ShmRing) (src : List Nat) (len : Nat) (senderId tstamp : Nat) :
    Bool × ShmRing :=
  if available_write rb < 24 + len then (false, rb)
  else if 0 < len then
    (true, { rb with
      data := writeWrap
        (writeWrap rb.data rb.capacity rb.mask rb.write_pos
          (shmHeaderBytes (u32 len) (u32 senderId) rb.write_pos (u32 tstamp)))
        rb.capacity rb.mask (u32 (rb.write_pos + 24)) (src.take len),
      write_pos := u32 (u32 (rb.write_pos + 24) + len) })
  else
    (true, { rb with
      data := writeWrap rb.data rb.capacity rb.mask rb.write_pos
        (shmHeaderBytes (u32 len) (u32 senderId) rb.write_pos (u32 tstamp)),
      write_pos := u32 (rb.write_pos + 24) })

/-- The reader-slot scan at the top of `ShmMultiReaderRingBuffer::read`:
first index whose slot matches `reader_id` and is active. -/
def findReaderIdx (readerId : Nat) : List ShmReader → Option Nat
  | [] => none
  | r :: rest =>
    if r.reader_id == readerId && r.active then some 0
    else (findReaderIdx readerId rest).map (· + 1)

/-- The `length` field of the record header at ring position `pos` (the
first four little-endian bytes the wrap copy reads out). -/
def shmMsgLen (rb : ShmRing) (pos : Nat) : Nat :=
  rd32 (readWrap rb.data rb.capacity rb.mask pos 24) 0

/-- The read-side slot position of reader slot `i`. -/
def shmReadPos (rb : ShmRing) (i : Nat) : Nat :=
  (rb.readers.getD i ⟨0, false, 0, 0⟩).read_pos

/-- `ShmMultiReaderRingBuffer::read` for reader `readerId`: locate the
active slot, require a complete 24-byte record header and then a complete
payload (both distances in `uint32_t` arithmetic), copy the payload out
and advance the slot's `read_pos`. -/
def shm_read (rb : ShmRing) (readerId tstamp : Nat) : Option (List Nat) × ShmRing :=
  match findReaderIdx readerId rb.readers with
  | none => (none, rb)
  | some i =>
    if u32sub rb.write_pos (shmReadPos rb i) < 24 then (none, rb)
    else if u32sub rb.write_pos (u32 (shmReadPos rb i + 24)) <
        shmMsgLen rb (shmReadPos rb i) then (none, rb)
    else if 0 < shmMsgLen rb (shmReadPos rb i) then
      let reader1 := { rb.readers.getD i ⟨0, false, 0, 0⟩ with
        read_pos := u32 (u32 (shmReadPos rb i + 24) + shmMsgLen rb (shmReadPos rb i)),
        last_access_time := tstamp }
      (some (readWrap rb.data rb.capacity rb.mask (u32 (shmReadPos rb i + 24))
         (shmMsgLen rb (shmReadPos rb i))),
       { rb with readers := rb.readers.set i reader1 })
    else
      let reader1 := { rb.readers.getD i ⟨0, false, 0, 0⟩ with
        read_pos := u32 (shmReadPos rb i + 24), last_access_time := tstamp }
      (some [], { rb with readers := rb.readers.set i reader1 })

/-! ## Claim C4: CRC-16 identifying vector -/

/-- The nine ASCII bytes of `"123456789"`. -/
def checkString : List Nat := [0x31, 0x32, 0x33, 0x34, 0x35, 0x36, 0x37, 0x38, 0x39]

/-- C4.  `comm_crc16("123456789")` with the bundled table, initial value
`0xFFFF` and the update rule `crc = (crc << 8) ^ T16[((crc >> 8) ^ byte) & 0xFF]`
returns `0xD641` — not the `0x29B1` the claim states (nor the `0xBB3D` the
repository's own test accepts as the alternative): the bundled table is the
reflected (IBM/ARC) table while the update rule is the MSB-first one, so
the composition matches neither standard vector. -/
theorem crc16_check_value : comm_crc16 checkString = 0xD641 := by decide

/-! ## Claims C6, C7, C2: `comm_reliable_on_receive` behaviour -/

/-- A well-formed data header with sequence `n` (matching the fields
`comm_frame_encode` would emit for an empty payload). -/
def seqHeader (n : Nat) : FrameHeader :=
  { magic := 0xA55A, version := 1, flags := 0, length := 32, src_endpoint := 5,
    dst_endpoint := 6, sequence := n, cmd_type := 0, header_crc := 0, payload_crc := 0 }

/-- Projection of an `on_receive` result to (return code, ACK sequence if
an ACK header was written). -/
def rxProbe (r : Option (Int × ReliableCtx × Option FrameHeader)) :
    Option (Int × Option Nat) :=
  r.map (fun x => (x.1, x.2.2.map (fun a => a.sequence)))

/-- C6.  On a freshly initialised context (window 8, `next_rx_seq = 0`),
the first received header with the nonzero in-window sequence 1 makes
`comm_reliable_on_receive` return `COMM_OK` (0) and write an ACK header
whose sequence is `next_rx_seq - 1 = 0xFFFFFFFF` — the code emits an ACK
before any frame has been accepted, against the specified semantics
(`INVALID` and no ACK). -/
theorem receive_acks_before_first_accept :
    rxProbe (comm_reliable_on_receive (comm_reliable_init 8) (seqHeader 1)) =
      some (0, some 4294967295) := by decide

/-- C7.  `comm_reliable_init 0` does not clamp the window size up to 1
(`window_size` stays 0), and the window-advance loop of
`comm_reliable_on_receive` then never reaches its exit condition: with
`window_size = 0` the guard `next_rx_seq - rx_window_base >= window_size`
is true for every `rx_window_base` and every fuel, so receiving the
in-order sequence 0 never terminates (modelled as `none`). -/
theorem receive_diverges_on_zero_window :
    (comm_reliable_init 0).window_size = 0 ∧
    (∀ fuel base mask, rxAdvance 1 0 fuel base mask = none) ∧
    comm_reliable_on_receive (comm_reliable_init 0) (seqHeader 0) = none := by
  refine ⟨by decide, ?_, by decide⟩
  intro fuel
  induction fuel with
  | zero => intro base mask; simp [rxAdvance]
  | succ n ih => intro base mask; simp [rxAdvance]; exact ih _ _

/-- The context left by `comm_reliable_on_receive` (unchanged when the
call would not terminate). -/
def rxCtxAfter (ctx : ReliableCtx) (h : FrameHeader) : ReliableCtx :=
  match comm_reliable_on_receive ctx h with
  | some (_, c, _) => c
  | none => ctx

/-- Scenario S6 for a context initialised with window argument `w`:
sequences 1 then 0; the stated counters and `next_rx_seq` values after
each step. -/
def S6Scenario (w : Nat) : Prop :=
  (comm_reliable_on_receive (comm_reliable_init w) (seqHeader 1)).isSome = true ∧
  (rxCtxAfter (comm_reliable_init w) (seqHeader 1)).stat_out_of_order = 1 ∧
  (rxCtxAfter (comm_reliable_init w) (seqHeader 1)).next_rx_seq = 0 ∧
  (comm_reliable_on_receive (rxCtxAfter (comm_reliable_init w) (seqHeader 1))
      (seqHeader 0)).isSome = true ∧
  (rxCtxAfter (rxCtxAfter (comm_reliable_init w) (seqHeader 1)) (seqHeader 0)).next_rx_seq = 2 ∧
  (rxCtxAfter (rxCtxAfter (comm_reliable_init w) (seqHeader 1)) (seqHeader 0)).stat_out_of_order = 1 ∧
  (rxCtxAfter (rxCtxAfter (comm_reliable_init w) (seqHeader 1)) (seqHeader 0)).stat_duplicates = 0

instance (w : Nat) : Decidable (S6Scenario w) := by unfold S6Scenario; infer_instance

/-- C2.  Scenario S6 holds for every window-size argument of at least 2
(the out-of-order sequence 1 must lie inside the receive window; the
`uint8_t` argument is below 256): after receiving sequence 1,
`out_of_order = 1` and `next_rx_seq = 0`; after then receiving sequence 0,
`next_rx_seq = 2`, `out_of_order = 1`, `duplicates = 0`. -/
theorem receive_s6_out_of_order :
    ∀ w : Nat, w < 256 → 2 ≤ w → S6Scenario w := by decide

/-- Witness for C2 at the window size the repository's test uses (8). -/
theorem receive_s6_out_of_order_witness : 8 < 256 ∧ 2 ≤ 8 ∧ S6Scenario 8 :=
  ⟨by decide, by decide, receive_s6_out_of_order 8 (by decide) (by decide)⟩

/-! ## Claim C3: ACK compaction -/

/-- A transmit-side context with four pending frames. -/
def ackCexCtx : ReliableCtx :=
  { next_tx_seq := 4, next_rx_seq := 0, tx_window_base := 0, rx_window_base := 0,
    window_size := 8, rto := 1000, tx_pending_mask := 0xF, rx_received_mask := 0,
    stat_retransmits := 0, stat_duplicates := 0, stat_out_of_order := 0 }

/-- An ACK header for sequence `0xFFFFFFFF`. -/
def ackCexHeader : FrameHeader :=
  { magic := 0xA55A, version := 1, flags := 16, length := 32, src_endpoint := 6,
    dst_endpoint := 5, sequence := 4294967295, cmd_type := 0, header_crc := 0,
    payload_crc := 0 }

/-- Counterexample to C3 as stated: for the ACK sequence `S = 0xFFFFFFFF`
with `tx_window_base = 0`, the claim's advance `min(S - base + 1, 32)`
is 32, but `shift = S - base + 1` overflows `uint32_t` to 0 and the code
advances the window base by 0 (and clears nothing). -/
theorem ack_compaction_cex :
    ackCexHeader.flags &&& 16 ≠ 0 ∧
    ackCexCtx.tx_window_base ≤ ackCexHeader.sequence ∧
    min (ackCexHeader.sequence - ackCexCtx.tx_window_base + 1) 32 = 32 ∧
    (comm_reliable_on_ack ackCexCtx ackCexHeader).1 = 0 ∧
    (comm_reliable_on_ack ackCexCtx ackCexHeader).2 = ackCexCtx := by decide

/-- C3 (amended).  For an ACK-flagged header with sequence `S` (reduced to
`uint32_t`): if `S < tx_window_base` the call returns OK and leaves the
context unchanged; if `S ≥ tx_window_base` it returns OK, advances
`tx_window_base` by `min((S - tx_window_base + 1) mod 2^32, 32)` — the
increment taken in `uint32_t` arithmetic, which is 0 rather than 32 when
`S - tx_window_base = 2^32 - 1` — and right-shifts `tx_pending_mask` by
the same amount. -/
theorem ack_compaction (ctx : ReliableCtx) (ack : FrameHeader)
    (hb : ctx.tx_window_base < U32) (hf : ack.flags &&& 16 ≠ 0) :
    (ack.sequence % U32 < ctx.tx_window_base → comm_reliable_on_ack ctx ack = (0, ctx)) ∧
    (ctx.tx_window_base ≤ ack.sequence % U32 →
      comm_reliable_on_ack ctx ack =
        (0, { ctx with
          tx_pending_mask :=
            ctx.tx_pending_mask >>> min ((ack.sequence % U32 - ctx.tx_window_base + 1) % U32) 32,
          tx_window_base :=
            (ctx.tx_window_base + min ((ack.sequence % U32 - ctx.tx_window_base + 1) % U32) 32) % U32 })) := by
  constructor
  · intro hlt
    unfold comm_reliable_on_ack
    rw [if_neg hf, if_pos (show u32 ack.sequence < ctx.tx_window_base from hlt)]
  · intro hge
    have h1 : ¬ u32 ack.sequence < ctx.tx_window_base := Nat.not_lt.mpr hge
    have key : ackShift ctx ack =
        min ((ack.sequence % U32 - ctx.tx_window_base + 1) % U32) 32 := by
      unfold ackShift
      simp only [Nat.min_def]
      simp only [u32, u32sub, U32] at hb hge ⊢
      split <;> split <;> omega
    unfold comm_reliable_on_ack
    rw [if_neg hf, if_neg h1, key]
    simp [u32]

/-- An ACK header for sequence 1 (scenario S4's ACK). -/
def ackWitHeader : FrameHeader := { ackCexHeader with sequence := 1 }

/-- Witness for C3 (amended): the concrete ACK of sequence 1 against a
window base of 0 advances the base to 2 = min((1 - 0 + 1) mod 2^32, 32)
and shifts the mask by 2. -/
theorem ack_compaction_witness :
    ackCexCtx.tx_window_base < U32 ∧ ackWitHeader.flags &&& 16 ≠ 0 ∧
    ((ackWitHeader.sequence % U32 < ackCexCtx.tx_window_base →
      comm_reliable_on_ack ackCexCtx ackWitHeader = (0, ackCexCtx)) ∧
    (ackCexCtx.tx_window_base ≤ ackWitHeader.sequence % U32 →
      comm_reliable_on_ack ackCexCtx ackWitHeader =
        (0, { ackCexCtx with
          tx_pending_mask := ackCexCtx.tx_pending_mask >>>
            min ((ackWitHeader.sequence % U32 - ackCexCtx.tx_window_base + 1) % U32) 32,
          tx_window_base := (ackCexCtx.tx_window_base +
            min ((ackWitHeader.sequence % U32 - ackCexCtx.tx_window_base + 1) % U32) 32) % U32 }))) :=
  ⟨by decide, by decide, ack_compaction ackCexCtx ackWitHeader (by decide) (by decide)⟩

/-! ## Claims C10 and C1: the frame codec -/

/-- Every CRC-32 table entry (and the out-of-range default 0) fits in 32
bits. -/
theorem crc32_table_lt (i : Nat) : comm_crc32_table.getD i 0 < U32 := by
  by_cases hi : i < 256
  · revert i
    decide
  · rw [List.getD_eq_default]
    · decide
    · simp only [Nat.not_lt] at hi
      calc comm_crc32_table.length = 256 := by decide
      _ ≤ i := hi

/-- XOR keeps `uint32_t` values in range. -/
theorem xor_lt_u32 {a b : Nat} (ha : a < U32) (hb : b < U32) : a ^^^ b < U32 := by
  have := Nat.xor_lt_two_pow (n := 32) (by simpa [U32] using ha) (by simpa [U32] using hb)
  simpa [U32] using this

/-- One CRC-32 step keeps the running value in range. -/
theorem crc32_step_lt (crc b : Nat) (h : crc < U32) : crc32_step crc b < U32 :=
  xor_lt_u32 (crc32_table_lt _)
    (by rw [Nat.shiftRight_eq_div_pow]; exact Nat.lt_of_le_of_lt (Nat.div_le_self _ _) h)

/-- The running CRC-32 state stays in range. -/
theorem crc32_run_lt (data : List Nat) (crc : Nat) (h : crc < U32) :
    crc32_run crc data < U32 := by
  induction data generalizing crc with
  | nil => exact h
  | cons b rest ih => exact ih _ (crc32_step_lt _ _ h)

/-- `comm_crc32` returns a `uint32_t` value. -/
theorem comm_crc32_lt (data : List Nat) : comm_crc32 data < U32 :=
  xor_lt_u32 (crc32_run_lt _ _ (by decide)) (by decide)

/-- The header written by `comm_frame_encode` before its CRC is filled in:
`length := 32 + |payload|`, `payload_crc := crc32(payload)` (0 when
empty), `header_crc := 0`. -/
def encHdr0 (payload : List Nat) (header : FrameHeader) : FrameHeader :=
  { header with length := 32 + payload.length,
                payload_crc := if 0 < payload.length then comm_crc32 payload else 0,
                header_crc := 0 }

/-- The header written by `comm_frame_encode`, CRC included. -/
def encHdr (payload : List Nat) (header : FrameHeader) : FrameHeader :=
  { encHdr0 payload header with
    header_crc := comm_crc32 ((headerBytes (encHdr0 payload header)).take 28) }

/-- With an adequate destination, `comm_frame_encode` succeeds and its
output is the normalised header image followed by the payload. -/
theorem comm_frame_encode_eq (payload : List Nat) (header : FrameHeader)
    (dstSize : Nat) (hd : 32 + payload.length ≤ dstSize) :
    comm_frame_encode dstSize payload header =
      ((32 + payload.length : Int), headerBytes (encHdr payload header) ++ payload) := by
  unfold comm_frame_encode encHdr encHdr0
  rw [if_neg (by omega)]
  rcases Nat.eq_zero_or_pos payload.length with hz | hp
  · simp [hz]
  · simp [hp]

/-- Parsing the encoded image of a well-formed header recovers it
exactly, whatever bytes follow. -/
theorem parseHeader_headerBytes (h : FrameHeader) (rest : List Nat) (hw : h.Wf) :
    parseHeader (headerBytes h ++ rest) = h := by
  obtain ⟨hm, hv, hf, hl, hs, hd, hq, hc, hhc, hpc⟩ := hw
  cases h with
  | mk m v f l s d q c hc2 pc =>
    have e : parseHeader (headerBytes ⟨m, v, f, l, s, d, q, c, hc2, pc⟩ ++ rest) =
        ⟨m % 256 + 256 * (m / 256 % 256), v % 256, f % 256,
         l % 256 + 256 * (l / 256 % 256) + 65536 * (l / 65536 % 256) +
           16777216 * (l / 16777216 % 256),
         s % 256 + 256 * (s / 256 % 256) + 65536 * (s / 65536 % 256) +
           16777216 * (s / 16777216 % 256),
         d % 256 + 256 * (d / 256 % 256) + 65536 * (d / 65536 % 256) +
           16777216 * (d / 16777216 % 256),
         q % 256 + 256 * (q / 256 % 256) + 65536 * (q / 65536 % 256) +
           16777216 * (q / 16777216 % 256),
         c % 256 + 256 * (c / 256 % 256) + 65536 * (c / 65536 % 256) +
           16777216 * (c / 16777216 % 256),
         hc2 % 256 + 256 * (hc2 / 256 % 256) + 65536 * (hc2 / 65536 % 256) +
           16777216 * (hc2 / 16777216 % 256),
         pc % 256 + 256 * (pc / 256 % 256) + 65536 * (pc / 65536 % 256) +
           16777216 * (pc / 16777216 % 256)⟩ := rfl
    rw [e]
    simp only [FrameHeader.mk.injEq, U32] at *
    refine ⟨by omega, by omega, by omega, by omega, by omega, by omega, by omega,
      by omega, by omega, by omega⟩

/-- The normalised header of an encode is well formed when the input
header's identity fields are. -/
theorem encHdr_wf (payload : List Nat) (header : FrameHeader) (hw : header.Wf)
    (hP : payload.length ≤ 992) : (encHdr payload header).Wf := by
  obtain ⟨hm, hv, hf, hl, hs, hd, hq, hc, hhc, hpc⟩ := hw
  refine ⟨hm, hv, hf, ?_, hs, hd, hq, hc, ?_, ?_⟩
  · show 32 + payload.length < U32
    unfold U32
    omega
  · exact comm_crc32_lt _
  · show (if 0 < payload.length then comm_crc32 payload else 0) < U32
    split
    · exact comm_crc32_lt _
    · decide

/-- C10.  Appending any non-empty suffix to a valid encoded frame and
passing the combined length makes `comm_frame_decode` return
`COMM_ERR_INVALID` (-1): `comm_frame_validate` requires the supplied
`received_len` to equal the header's `length` field exactly. -/
theorem decode_rejects_trailing_bytes (payload : List Nat) (header : FrameHeader)
    (tail : List Nat) (cap : Nat) (hP : payload.length ≤ 992) (hw : header.Wf)
    (hm : header.magic = 0xA55A) (hv : header.version = 1) (ht : tail ≠ []) :
    (comm_frame_decode ((comm_frame_encode (32 + payload.length) payload header).2 ++ tail)
        (32 + payload.length + tail.length) cap).code = -1 := by
  rw [comm_frame_encode_eq payload header _ (Nat.le_refl _)]
  have htail : 0 < tail.length := List.length_pos.mpr ht
  have hparse : parseHeader (headerBytes (encHdr payload header) ++ (payload ++ tail)) =
      encHdr payload header :=
    parseHeader_headerBytes _ _ (encHdr_wf payload header hw hP)
  have hval : comm_frame_validate (encHdr payload header)
      (32 + payload.length + tail.length) = -1 := by
    have e1 : (encHdr payload header).magic = header.magic := rfl
    have e2 : (encHdr payload header).version = header.version := rfl
    have e3 : (encHdr payload header).length = 32 + payload.length := rfl
    unfold comm_frame_validate
    rw [e1, e2, e3, hm, hv]
    rw [if_neg (by omega), if_neg (by omega), if_neg (by omega), if_neg (by omega),
      if_pos (by omega)]
  unfold comm_frame_decode
  rw [if_neg (by omega), List.append_assoc, hparse, if_pos (by rw [hval]; decide)]

/-- Witness for C10: a one-byte payload frame with a one-byte trailer is
rejected with `INVALID`. -/
theorem decode_rejects_trailing_bytes_witness :
    ([7] : List Nat).length ≤ 992 ∧ (seqHeader 3).Wf ∧ (seqHeader 3).magic = 0xA55A ∧
    (seqHeader 3).version = 1 ∧ ([0] : List Nat) ≠ [] ∧
    (comm_frame_decode ((comm_frame_encode (32 + ([7] : List Nat).length) [7] (seqHeader 3)).2 ++ [0])
        (32 + ([7] : List Nat).length + ([0] : List Nat).length) 8).code = -1 :=
  ⟨by decide, by decide, by decide, by decide, by decide,
   decode_rejects_trailing_bytes [7] (seqHeader 3) [0] 8 (by decide) (by decide)
     (by decide) (by decide) (by decide)⟩

/-- Bytes 0..23 of a header image are 24 bytes. -/
theorem headerFields24_length (h : FrameHeader) : (headerFields24 h).length = 24 := rfl

/-- A header image is 32 bytes. -/
theorem headerBytes_length (h : FrameHeader) : (headerBytes h).length = 32 := by
  simp [headerBytes, headerFields24, le32]

/-- The first 28 bytes of a header image (the region `header_crc` is
computed over). -/
theorem headerBytes_take_28 (h : FrameHeader) :
    (headerBytes h).take 28 = headerFields24 h ++ le32 h.header_crc := by
  unfold headerBytes
  rw [List.append_assoc,
    show (28 : Nat) = (headerFields24 h).length + 4 from by rw [headerFields24_length],
    List.take_append]
  rw [show (4 : Nat) = (le32 h.header_crc).length from rfl, List.take_left]

/-- The first 24 bytes of an encoded frame are the header's identity
fields. -/
theorem headerBytes_take_24 (h : FrameHeader) (rest : List Nat) :
    ((headerBytes h ++ rest)).take 24 = headerFields24 h := by
  unfold headerBytes
  rw [List.append_assoc, List.append_assoc,
    show (24 : Nat) = (headerFields24 h).length from (headerFields24_length h).symm,
    List.take_left]

/-- Dropping the 32 header bytes of an encoded frame leaves the payload. -/
theorem headerBytes_drop_32 (h : FrameHeader) (rest : List Nat) :
    ((headerBytes h ++ rest)).drop 32 = rest := by
  rw [show (32 : Nat) = (headerBytes h).length from (headerBytes_length h).symm,
    List.drop_left]

/-- C1.  Frame round-trip: for every payload of at most
`MAX_FRAME_SIZE - 32 = 992` bytes and every well-formed header with valid
magic and version, decoding the encoded frame (with `src_len` equal to the
encoded length and a payload buffer of capacity at least the payload
length) returns `COMM_OK`, the exact payload bytes, and the header
normalised by the encoder: `length = 32 + |payload|`, `payload_crc`
recomputed over the payload, `header_crc` recomputed over the first 28
little-endian header bytes with the CRC field zeroed. -/
theorem frame_roundtrip (payload : List Nat) (header : FrameHeader) (cap : Nat)
    (hP : payload.length ≤ 992) (hcap : payload.length ≤ cap) (hw : header.Wf)
    (hm : header.magic = 0xA55A) (hv : header.version = 1) :
    comm_frame_decode (comm_frame_encode (32 + payload.length) payload header).2
        (32 + payload.length) cap =
      ⟨0, encHdr payload header, payload, payload.length⟩ ∧
    encHdr payload header =
      { header with length := 32 + payload.length,
                    payload_crc := if 0 < payload.length then comm_crc32 payload else 0,
                    header_crc := comm_crc32 ((headerBytes (encHdr0 payload header)).take 28) } := by
  refine ⟨?_, rfl⟩
  rw [comm_frame_encode_eq payload header _ (Nat.le_refl _)]
  have hparse : parseHeader (headerBytes (encHdr payload header) ++ payload) =
      encHdr payload header :=
    parseHeader_headerBytes _ _ (encHdr_wf payload header hw hP)
  have e1 : (encHdr payload header).magic = header.magic := rfl
  have e2 : (encHdr payload header).version = header.version := rfl
  have e3 : (encHdr payload header).length = 32 + payload.length := rfl
  have hval : comm_frame_validate (encHdr payload header) (32 + payload.length) = 0 := by
    unfold comm_frame_validate
    rw [e1, e2, e3, hm, hv]
    rw [if_neg (by decide), if_neg (by decide), if_neg (by omega), if_neg (by omega),
      if_neg (by omega)]
  have hregion : (headerBytes (encHdr payload header) ++ payload).take 24 ++
      ([0, 0, 0, 0] : List Nat) = (headerBytes (encHdr0 payload header)).take 28 := by
    rw [headerBytes_take_24, headerBytes_take_28]
    congr 1
    simp [le32, encHdr0]
  have hstored : rd32 (headerBytes (encHdr payload header) ++ payload) 24 =
      (encHdr payload header).header_crc :=
    congrArg FrameHeader.header_crc hparse
  have hcalc : comm_crc32 ((headerBytes (encHdr payload header) ++ payload).take 24 ++
      [0, 0, 0, 0]) = (encHdr payload header).header_crc := by
    rw [hregion]; rfl
  have hdrop : (headerBytes (encHdr payload header) ++ payload).drop 32 = payload :=
    headerBytes_drop_32 _ _
  unfold comm_frame_decode
  rw [hparse, if_neg (show ¬ (32 + payload.length < 32) by omega),
    if_neg (show ¬ (comm_frame_validate (encHdr payload header) (32 + payload.length) ≠ 0) by
      rw [hval]; decide),
    if_neg (show ¬ (32 + payload.length < (encHdr payload header).length) by rw [e3]; omega),
    if_neg (show ¬ (comm_crc32 ((headerBytes (encHdr payload header) ++ payload).take 24 ++
        [0, 0, 0, 0]) ≠ rd32 (headerBytes (encHdr payload header) ++ payload) 24) by
      rw [hcalc, hstored]; exact fun hne => hne rfl)]
  rw [e3, hdrop]
  have hsub : 32 + payload.length - 32 = payload.length := by omega
  rw [hsub, List.take_length]
  rcases Nat.eq_zero_or_pos payload.length with hz | hp
  · rw [if_neg (by omega)]
    rw [List.eq_nil_of_length_eq_zero hz]
    simp [hz]
  · rw [if_pos hp, if_neg (by omega)]
    have hpc : (encHdr payload header).payload_crc = comm_crc32 payload := by
      show (if 0 < payload.length then comm_crc32 payload else 0) = comm_crc32 payload
      rw [if_pos hp]
    rw [if_neg (show ¬ (comm_crc32 payload ≠ (encHdr payload header).payload_crc) by
      rw [hpc]; exact fun hne => hne rfl)]

/-- Witness for C1: the round trip on a concrete three-byte payload and
header. -/
theorem frame_roundtrip_witness :
    ([1, 2, 3] : List Nat).length ≤ 992 ∧ ([1, 2, 3] : List Nat).length ≤ 8 ∧
    (seqHeader 7).Wf ∧ (seqHeader 7).magic = 0xA55A ∧ (seqHeader 7).version = 1 ∧
    (comm_frame_decode
        (comm_frame_encode (32 + ([1, 2, 3] : List Nat).length) [1, 2, 3] (seqHeader 7)).2
        (32 + ([1, 2, 3] : List Nat).length) 8 =
      ⟨0, encHdr [1, 2, 3] (seqHeader 7), [1, 2, 3], ([1, 2, 3] : List Nat).length⟩ ∧
     encHdr [1, 2, 3] (seqHeader 7) =
      { seqHeader 7 with length := 32 + ([1, 2, 3] : List Nat).length,
                         payload_crc := if 0 < ([1, 2, 3] : List Nat).length
                           then comm_crc32 [1, 2, 3] else 0,
                         header_crc := comm_crc32
                           ((headerBytes (encHdr0 [1, 2, 3] (seqHeader 7))).take 28) }) :=
  ⟨by decide, by decide, by decide, by decide, by decide,
   frame_roundtrip [1, 2, 3] (seqHeader 7) 8 (by decide) (by decide) (by decide)
     (by decide) (by decide)⟩

/-! ## Claim C8: ring buffer capacity -/

/-- Index well-formedness of a ring buffer state: positive size and both
indices within it (established by `init` and preserved by every
operation). -/
def RingbufInv (rb : Ringbuf) : Prop :=
  0 < rb.size ∧ rb.head < rb.size ∧ rb.tail < rb.size

/-- With well-formed indices, at most `size - 1` bytes are readable. -/
theorem comm_ringbuf_available_le (rb : Ringbuf) (h : RingbufInv rb) :
    comm_ringbuf_available rb ≤ rb.size - 1 := by
  obtain ⟨h1, h2, h3⟩ := h
  unfold comm_ringbuf_available
  split <;> omega

/-- Every ring-buffer operation preserves index well-formedness and the
size. -/
theorem ringStep_inv (rb : Ringbuf) (op : RingOp) (h : RingbufInv rb) :
    RingbufInv (ringStep rb op) ∧ (ringStep rb op).size = rb.size := by
  obtain ⟨h1, h2, h3⟩ := h
  cases op with
  | put b =>
    simp only [ringStep, comm_ringbuf_put]
    split
    · exact ⟨⟨h1, h2, h3⟩, rfl⟩
    · exact ⟨⟨h1, Nat.mod_lt _ h1, h3⟩, rfl⟩
  | get =>
    simp only [ringStep, comm_ringbuf_get]
    split
    · exact ⟨⟨h1, h2, h3⟩, rfl⟩
    · exact ⟨⟨h1, h2, Nat.mod_lt _ h1⟩, rfl⟩
  | write data len =>
    have hav := comm_ringbuf_available_le rb ⟨h1, h2, h3⟩
    simp only [ringStep, comm_ringbuf_write, comm_ringbuf_free_space]
    split
    · exact ⟨⟨h1, Nat.mod_lt _ h1, h3⟩, rfl⟩
    · next hgt =>
      refine ⟨⟨h1, ?_, h3⟩, rfl⟩
      show min len (rb.size - 1 - comm_ringbuf_available rb) - (rb.size - rb.head) < rb.size
      simp only [Nat.not_le] at hgt
      omega
  | read len =>
    have hav := comm_ringbuf_available_le rb ⟨h1, h2, h3⟩
    simp only [ringStep, comm_ringbuf_read]
    split
    · exact ⟨⟨h1, h2, h3⟩, rfl⟩
    · split
      · exact ⟨⟨h1, h2, Nat.mod_lt _ h1⟩, rfl⟩
      · next hgt =>
        refine ⟨⟨h1, h2, ?_⟩, rfl⟩
        show min len (comm_ringbuf_available rb) - (rb.size - rb.tail) < rb.size
        simp only [Nat.not_le] at hgt
        omega
  | peek len => exact ⟨⟨h1, h2, h3⟩, rfl⟩
  | clear => exact ⟨⟨h1, h1, h1⟩, rfl⟩

/-- Sequences of operations preserve index well-formedness and the size. -/
theorem ringRun_inv (ops : List RingOp) (rb : Ringbuf) (h : RingbufInv rb) :
    RingbufInv (ringRun rb ops) ∧ (ringRun rb ops).size = rb.size := by
  induction ops generalizing rb with
  | nil => exact ⟨h, rfl⟩
  | cons op rest ih =>
    have hstep := ringStep_inv rb op h
    have := ih (ringStep rb op) hstep.1
    exact ⟨this.1, this.2.trans hstep.2⟩

/-- After `k ≤ size - 1` consecutive puts on a fresh buffer, the head is
at `k` and the tail still at 0. -/
theorem ringPutN_state (buffer : List Nat) (size : Nat) (hs : 0 < size) (k : Nat)
    (hk : k ≤ size - 1) :
    (ringPutN (comm_ringbuf_init buffer size) k).size = size ∧
    (ringPutN (comm_ringbuf_init buffer size) k).head = k ∧
    (ringPutN (comm_ringbuf_init buffer size) k).tail = 0 := by
  induction k with
  | zero => exact ⟨rfl, rfl, rfl⟩
  | succ n ih =>
    obtain ⟨is, ihd, itl⟩ := ih (by omega)
    show (comm_ringbuf_put (ringPutN (comm_ringbuf_init buffer size) n) 0).2.size = size ∧
      (comm_ringbuf_put (ringPutN (comm_ringbuf_init buffer size) n) 0).2.head = n + 1 ∧
      (comm_ringbuf_put (ringPutN (comm_ringbuf_init buffer size) n) 0).2.tail = 0
    unfold comm_ringbuf_put
    rw [is, ihd, itl]
    rw [if_neg (show ¬ (n + 1) % size = 0 by rw [Nat.mod_eq_of_lt (by omega)]; omega)]
    exact ⟨rfl, Nat.mod_eq_of_lt (by omega), rfl⟩

/-- C8.  Ring buffer capacity: on a fresh buffer of `size > 0`, the first
`size - 1` consecutive `comm_ringbuf_put` calls succeed, the next one
returns false, and after every sequence of operations
`available + free_space = size - 1`. -/
theorem ringbuf_capacity (buffer : List Nat) (size : Nat) (hs : 0 < size) :
    (∀ k, k < size - 1 →
      (comm_ringbuf_put (ringPutN (comm_ringbuf_init buffer size) k) 0).1 = true) ∧
    (comm_ringbuf_put (ringPutN (comm_ringbuf_init buffer size) (size - 1)) 0).1 = false ∧
    (∀ ops : List RingOp,
      comm_ringbuf_available (ringRun (comm_ringbuf_init buffer size) ops) +
        comm_ringbuf_free_space (ringRun (comm_ringbuf_init buffer size) ops) = size - 1) := by
  refine ⟨?_, ?_, ?_⟩
  · intro k hk
    obtain ⟨is, ihd, itl⟩ := ringPutN_state buffer size hs k (by omega)
    unfold comm_ringbuf_put
    rw [is, ihd, itl]
    rw [if_neg (show ¬ (k + 1) % size = 0 by rw [Nat.mod_eq_of_lt (by omega)]; omega)]
  · obtain ⟨is, ihd, itl⟩ := ringPutN_state buffer size hs (size - 1) (Nat.le_refl _)
    unfold comm_ringbuf_put
    rw [is, ihd, itl]
    rw [if_pos (show (size - 1 + 1) % size = 0 by
      rw [Nat.sub_add_cancel hs, Nat.mod_self])]
  · intro ops
    have hinit : RingbufInv (comm_ringbuf_init buffer size) := ⟨hs, hs, hs⟩
    obtain ⟨hinv, hsz⟩ := ringRun_inv ops _ hinit
    have hsz2 : (ringRun (comm_ringbuf_init buffer size) ops).size = size := hsz
    have hav := comm_ringbuf_available_le _ hinv
    rw [hsz2] at hav
    unfold comm_ringbuf_free_space
    rw [hsz2]
    omega

/-- Witness for C8 at the test scenario S3's size 16 (15 puts succeed, the
16th fails; a sample operation sequence keeps the capacity identity). -/
theorem ringbuf_capacity_witness :
    0 < 16 ∧
    (comm_ringbuf_put (ringPutN (comm_ringbuf_init (List.replicate 16 0) 16) 14) 0).1 = true ∧
    (comm_ringbuf_put (ringPutN (comm_ringbuf_init (List.replicate 16 0) 16) 15) 0).1 = false ∧
    comm_ringbuf_available
        (ringRun (comm_ringbuf_init (List.replicate 16 0) 16) [.put 9, .put 9, .get]) +
      comm_ringbuf_free_space
        (ringRun (comm_ringbuf_init (List.replicate 16 0) 16) [.put 9, .put 9, .get]) = 15 :=
  ⟨by decide,
   (ringbuf_capacity (List.replicate 16 0) 16 (by decide)).1 14 (by decide),
   (ringbuf_capacity (List.replicate 16 0) 16 (by decide)).2.1,
   (ringbuf_capacity (List.replicate 16 0) 16 (by decide)).2.2 [.put 9, .put 9, .get]⟩

/-! ## Claim C9: shared-memory ring slowest-reader bound -/

/-- The fold inside `get_slowest_reader_pos`, over an arbitrary starting
minimum. -/
def slowestFold (acc : Nat) (l : List ShmReader) : Nat :=
  l.foldl (fun minPos r => if r.active ∧ r.read_pos < minPos then r.read_pos else minPos) acc

theorem get_slowest_eq_fold (rb : ShmRing) :
    get_slowest_reader_pos rb = slowestFold rb.write_pos rb.readers := rfl

theorem slowestFold_cons (s : ShmReader) (rest : List ShmReader) (acc : Nat) :
    slowestFold acc (s :: rest) =
      slowestFold (if s.active ∧ s.read_pos < acc then s.read_pos else acc) rest := rfl

/-- The slowest-reader scan never exceeds its starting value. -/
theorem slowestFold_le_acc (l : List ShmReader) (acc : Nat) : slowestFold acc l ≤ acc := by
  induction l generalizing acc with
  | nil => exact Nat.le_refl _
  | cons r rest ih =>
    rw [slowestFold_cons]
    split
    · next hlt => exact Nat.le_trans (ih _) (Nat.le_of_lt hlt.2)
    · exact ih _

/-- The slowest-reader scan is at or below every active slot's position. -/
theorem slowestFold_le_active (l : List ShmReader) (acc : Nat) (r : ShmReader)
    (hr : r ∈ l) (ha : r.active = true) : slowestFold acc l ≤ r.read_pos := by
  induction l generalizing acc with
  | nil => cases hr
  | cons s rest ih =>
    rw [slowestFold_cons]
    rcases List.mem_cons.mp hr with heq | hmem
    · subst heq
      split
      · exact slowestFold_le_acc _ _
      · next hno =>
        have hnl : ¬ r.read_pos < acc := fun hl => hno ⟨by simp [ha], hl⟩
        exact Nat.le_trans (slowestFold_le_acc _ _) (Nat.le_of_not_lt hnl)
    · exact ih _ hmem

/-- The slowest-reader scan returns its start or an active slot's
position. -/
theorem slowestFold_cases (l : List ShmReader) (acc : Nat) :
    slowestFold acc l = acc ∨
    ∃ r ∈ l, r.active = true ∧ slowestFold acc l = r.read_pos := by
  induction l generalizing acc with
  | nil => exact Or.inl rfl
  | cons s rest ih =>
    rw [slowestFold_cons]
    split
    · next hc =>
      rcases ih s.read_pos with h | ⟨r, hm, ha, he⟩
      · exact Or.inr ⟨s, List.mem_cons_self _ _, by simp [hc.1], h⟩
      · exact Or.inr ⟨r, List.mem_cons_of_mem _ hm, ha, he⟩
    · rcases ih acc with h | ⟨r, hm, ha, he⟩
      · exact Or.inl h
      · exact Or.inr ⟨r, List.mem_cons_of_mem _ hm, ha, he⟩

/-- Inactive slots do not constrain the scan. -/
theorem slowestFold_all_inactive (l : List ShmReader) (acc : Nat)
    (h : ∀ r ∈ l, r.active = false) : slowestFold acc l = acc := by
  induction l generalizing acc with
  | nil => rfl
  | cons s rest ih =>
    rw [slowestFold_cons]
    rw [if_neg (fun hc => by
      have hf := h s (List.mem_cons_self _ _)
      rw [hf] at hc
      exact Bool.false_ne_true hc.1)]
    exact ih _ (fun r hr => h r (List.mem_cons_of_mem _ hr))

/-- The per-reader slowest-reader invariant: every active reader is at or
behind the write position, by at most the capacity. -/
def ShmInv (rb : ShmRing) : Prop :=
  ∀ r ∈ rb.readers, r.active = true →
    r.read_pos ≤ rb.write_pos ∧ rb.write_pos - r.read_pos ≤ rb.capacity

instance (rb : ShmRing) : Decidable (ShmInv rb) := by unfold ShmInv; infer_instance

/-- A successful slot scan lands on an active, id-matching slot inside the
list. -/
theorem findReaderIdx_spec (readerId : Nat) (l : List ShmReader) (i : Nat)
    (h : findReaderIdx readerId l = some i) :
    i < l.length ∧
    ((l.getD i ⟨0, false, 0, 0⟩).reader_id == readerId &&
      (l.getD i ⟨0, false, 0, 0⟩).active) = true := by
  induction l generalizing i with
  | nil => simp [findReaderIdx] at h
  | cons s rest ih =>
    unfold findReaderIdx at h
    split at h
    · next hp =>
      cases h
      exact ⟨Nat.succ_pos _, hp⟩
    · next hp =>
      match hrec : findReaderIdx readerId rest with
      | none => rw [hrec] at h; cases h
      | some j =>
        rw [hrec] at h
        cases h
        obtain ⟨hl, hpred⟩ := ih j hrec
        exact ⟨Nat.succ_lt_succ hl, hpred⟩

/-- Every `shm_write` (rejected or published) keeps
`write_pos - slowest ≤ capacity` when it held before. -/
theorem shm_write_preserves_bound (rb : ShmRing) (src : List Nat) (len sid t : Nat)
    (hw : rb.write_pos < U32)
    (hd : rb.write_pos - get_slowest_reader_pos rb ≤ rb.capacity) :
    (shm_write rb src len sid t).2.write_pos -
      get_slowest_reader_pos (shm_write rb src len sid t).2 ≤ rb.capacity := by
  have hsle : get_slowest_reader_pos rb ≤ rb.write_pos := by
    rw [get_slowest_eq_fold]; exact slowestFold_le_acc _ _
  rw [get_slowest_eq_fold] at hd hsle
  unfold shm_write
  split
  · next hlt =>
    show rb.write_pos - get_slowest_reader_pos rb ≤ rb.capacity
    rw [get_slowest_eq_fold]; exact hd
  · next hge =>
    simp only [Nat.not_lt] at hge
    have hguard : 24 + len ≤ rb.capacity -
        (rb.write_pos - slowestFold rb.write_pos rb.readers) := by
      simp only [available_write, u32sub, u32, U32] at hge
      rw [get_slowest_eq_fold] at hge
      simp only [U32] at hw
      omega
    split
    · next hlenpos =>
      show u32 (u32 (rb.write_pos + 24) + len) -
        slowestFold (u32 (u32 (rb.write_pos + 24) + len)) rb.readers ≤ rb.capacity
      have hle2 := slowestFold_le_acc rb.readers (u32 (u32 (rb.write_pos + 24) + len))
      rcases slowestFold_cases rb.readers (u32 (u32 (rb.write_pos + 24) + len)) with
        heq | ⟨r, hm, ha, he⟩
      · rw [heq]; omega
      · have hsr := slowestFold_le_active rb.readers rb.write_pos r hm ha
        rw [he] at hle2 ⊢
        simp only [u32, U32] at *
        omega
    · next hlenz =>
      show u32 (rb.write_pos + 24) - slowestFold (u32 (rb.write_pos + 24)) rb.readers ≤
        rb.capacity
      have hle2 := slowestFold_le_acc rb.readers (u32 (rb.write_pos + 24))
      rcases slowestFold_cases rb.readers (u32 (rb.write_pos + 24)) with heq | ⟨r, hm, ha, he⟩
      · rw [heq]; omega
      · have hsr := slowestFold_le_active rb.readers rb.write_pos r hm ha
        rw [he] at hle2 ⊢
        simp only [u32, U32] at *
        omega

/-- Every `shm_read` preserves the per-reader invariant. -/
theorem shm_read_preserves_inv (rb : ShmRing) (readerId t : Nat)
    (hw : rb.write_pos < U32) (hinv : ShmInv rb) : ShmInv (shm_read rb readerId t).2 := by
  unfold shm_read
  split
  · exact hinv
  · next i hfind =>
    obtain ⟨hilen, hpred⟩ := findReaderIdx_spec readerId rb.readers i hfind
    have hact : (rb.readers.getD i ⟨0, false, 0, 0⟩).active = true :=
      (Bool.and_eq_true _ _ |>.mp hpred).2
    have hmem : rb.readers.getD i ⟨0, false, 0, 0⟩ ∈ rb.readers := by
      rw [List.getD_eq_getElem _ _ hilen]
      exact List.getElem_mem _
    obtain ⟨hrle, hrcap⟩ := hinv _ hmem hact
    split
    · exact hinv
    · next hg1 =>
      split
      · exact hinv
      · next hg2 =>
        have hsub1 : u32sub rb.write_pos (shmReadPos rb i) =
            rb.write_pos - shmReadPos rb i := by
          unfold shmReadPos at *
          simp only [u32sub, u32, U32] at *
          omega
        rw [hsub1] at hg1
        simp only [Nat.not_lt] at hg1 hg2
        have hr24 : shmReadPos rb i + 24 ≤ rb.write_pos := by
          unfold shmReadPos at *
          omega
        have hsub2 : u32sub rb.write_pos (u32 (shmReadPos rb i + 24)) =
            rb.write_pos - (shmReadPos rb i + 24) := by
          simp only [u32sub, u32, U32] at *
          omega
        rw [hsub2] at hg2
        split
        · next hmsgpos =>
          intro r' hr' ha'
          rcases List.mem_or_eq_of_mem_set hr' with hold | hnew
          · exact hinv r' hold ha'
          · subst hnew
            constructor
            · show u32 (u32 (shmReadPos rb i + 24) + shmMsgLen rb (shmReadPos rb i)) ≤
                rb.write_pos
              simp only [u32, U32] at *
              omega
            · show rb.write_pos -
                u32 (u32 (shmReadPos rb i + 24) + shmMsgLen rb (shmReadPos rb i)) ≤
                rb.capacity
              unfold shmReadPos at *
              simp only [u32, U32] at *
              omega
        · next hmsgz =>
          intro r' hr' ha'
          rcases List.mem_or_eq_of_mem_set hr' with hold | hnew
          · exact hinv r' hold ha'
          · subst hnew
            constructor
            · show u32 (shmReadPos rb i + 24) ≤ rb.write_pos
              simp only [u32, U32] at *
              omega
            · show rb.write_pos - u32 (shmReadPos rb i + 24) ≤ rb.capacity
              unfold shmReadPos at *
              simp only [u32, U32] at *
              omega

/-- The per-reader invariant implies the slowest-reader bound. -/
theorem shm_inv_bound (rb : ShmRing) (hinv : ShmInv rb) :
    rb.write_pos - get_slowest_reader_pos rb ≤ rb.capacity := by
  rw [get_slowest_eq_fold]
  rcases slowestFold_cases rb.readers rb.write_pos with heq | ⟨r, hm, ha, he⟩
  · rw [heq]; omega
  · rw [he]
    exact (hinv r hm ha).2

/-- A wrapped state: capacity 16, `write_pos = 2^31`, one active reader
numerically just ahead of the writer at `2^31 + 1`, and buffer bytes whose
record-header `length` field decodes to `2^31`. -/
def shmCexRing : ShmRing :=
  { write_pos := 2147483648, capacity := 16, mask := 15,
    readers := [⟨2147483649, true, 7, 0⟩],
    data := [0, 0, 0, 0, 0x80] ++ List.replicate 11 0 }

/-- Counterexample to C9 as stated: `shmCexRing` satisfies
`write_pos - slowest ≤ capacity` (the reader sits numerically ahead of
`write_pos`, so the minimum defaults to `write_pos` and the difference is
0), yet a single successful `read` — whose distance guards pass because
the `uint32_t` differences wrap — moves the reader's position to 25,
after which `write_pos - slowest = 2^31 - 25 > 16`: a read does not
preserve the claimed invariant. -/
theorem shm_read_breaks_bound_cex :
    shmCexRing.write_pos - get_slowest_reader_pos shmCexRing ≤ shmCexRing.capacity ∧
    (shm_read shmCexRing 7 0).1.isSome = true ∧
    shmCexRing.capacity <
      (shm_read shmCexRing 7 0).2.write_pos -
        get_slowest_reader_pos (shm_read shmCexRing 7 0).2 := by decide

/-- C9 (amended).  (a) `shm_write` returns false and leaves the state
unchanged whenever `24 + len` exceeds
`capacity - (write_pos - slowest_reader_pos)`; (b) when no slot is
active the slowest position defaults to `write_pos`, so inactive slots
never constrain the writer; (c) every write preserves
`write_pos - slowest ≤ capacity`; (d) every read preserves the stronger
per-reader invariant `read_pos ≤ write_pos ∧ write_pos - read_pos ≤
capacity` for all active slots, which (e) implies the slowest-reader
bound.  (A read from a state that satisfies only the slowest-reader bound
can break it — see the counterexample — so the claim's "preserved by
every read" holds only through the per-reader invariant.) -/
theorem shm_slowest_bound :
    (∀ (rb : ShmRing) (src : List Nat) (len sid t : Nat),
      available_write rb < 24 + len → shm_write rb src len sid t = (false, rb)) ∧
    (∀ rb : ShmRing, (∀ r ∈ rb.readers, r.active = false) →
      get_slowest_reader_pos rb = rb.write_pos) ∧
    (∀ (rb : ShmRing) (src : List Nat) (len sid t : Nat), rb.write_pos < U32 →
      rb.write_pos - get_slowest_reader_pos rb ≤ rb.capacity →
      (shm_write rb src len sid t).2.write_pos -
        get_slowest_reader_pos (shm_write rb src len sid t).2 ≤ rb.capacity) ∧
    (∀ (rb : ShmRing) (readerId t : Nat), rb.write_pos < U32 → ShmInv rb →
      ShmInv (shm_read rb readerId t).2) ∧
    (∀ rb : ShmRing, ShmInv rb →
      rb.write_pos - get_slowest_reader_pos rb ≤ rb.capacity) := by
  refine ⟨?_, ?_, shm_write_preserves_bound, shm_read_preserves_inv, shm_inv_bound⟩
  · intro rb src len sid t h
    unfold shm_write
    rw [if_pos h]
  · intro rb h
    rw [get_slowest_eq_fold]
    exact slowestFold_all_inactive _ _ h

/-- A healthy ring (capacity 64, one active reader at the write
position). -/
def shmWitRing : ShmRing :=
  { write_pos := 0, capacity := 64, mask := 63,
    readers := [⟨0, true, 7, 0⟩], data := List.replicate 64 0 }

/-- Witness for C9 (amended): the bound and invariant preservation at the
concrete ring `shmWitRing`, and the write rejection at an oversized
write. -/
theorem shm_slowest_bound_witness :
    (available_write shmWitRing < 24 + 41 →
      shm_write shmWitRing (List.replicate 41 1) 41 9 0 = (false, shmWitRing)) ∧
    shmWitRing.write_pos < U32 ∧
    shmWitRing.write_pos - get_slowest_reader_pos shmWitRing ≤ shmWitRing.capacity ∧
    ((shm_write shmWitRing [1, 2, 3] 3 9 0).2.write_pos -
      get_slowest_reader_pos (shm_write shmWitRing [1, 2, 3] 3 9 0).2 ≤
        shmWitRing.capacity) ∧
    ShmInv shmWitRing ∧ ShmInv (shm_read shmWitRing 7 0).2 :=
  ⟨shm_slowest_bound.1 shmWitRing (List.replicate 41 1) 41 9 0,
   by decide, by decide,
   shm_slowest_bound.2.2.1 shmWitRing [1, 2, 3] 3 9 0 (by decide) (by decide),
   by decide,
   shm_slowest_bound.2.2.2.1 shmWitRing 7 0 (by decide) (by decide)⟩

end Comm

namespace Comm

/-! ## Claim C5: header-CRC rejection of single-bit corruption

The CRC-32 update is GF(2)-linear in its state, so the table satisfies
`T[u ^^^ v] = T[u] ^^^ T[v]` and the difference between the CRC states of
two inputs that differ in one byte evolves autonomously.  Every table entry
of a nonzero index is at least `2^24`, so a nonzero difference never dies
out and the final CRCs differ.  Bit flips in the magic, version or length
bytes are caught earlier, by `comm_frame_validate`. -/
theorem shiftRight_xor (a b n : Nat) : (a ^^^ b) >>> n = a >>> n ^^^ b >>> n := by
  apply Nat.eq_of_testBit_eq
  intro i
  simp [Nat.testBit_shiftRight, Nat.testBit_xor]

theorem and_xor_right (a b c : Nat) : (a ^^^ b) &&& c = (a &&& c) ^^^ (b &&& c) := by
  apply Nat.eq_of_testBit_eq
  intro i
  simp [Nat.testBit_and, Nat.testBit_xor, Bool.and_xor_distrib_right]

theorem and255_eq_of_lt (a : Nat) (h : a < 256) : a &&& 255 = a := by
  have e : a &&& (2 ^ 8 - 1) = a % 2 ^ 8 := Nat.and_pow_two_sub_one_eq_mod a 8
  simpa [Nat.mod_eq_of_lt h] using e

theorem and255_lt (x : Nat) : x &&& 255 < 256 := by
  rw [show (255 : Nat) = 2 ^ 8 - 1 from rfl, Nat.and_pow_two_sub_one_eq_mod]
  exact Nat.mod_lt _ (by norm_num)

/-- Rearranging a 4-term XOR. -/
theorem xor_xor_xor (p q r s : Nat) : (p ^^^ q) ^^^ (r ^^^ s) = (p ^^^ r) ^^^ (q ^^^ s) := by
  apply Nat.eq_of_testBit_eq
  intro i
  simp [Nat.testBit_xor]
  cases p.testBit i <;> cases q.testBit i <;> cases r.testBit i <;> cases s.testBit i <;> rfl

/-- One division round of the reflected CRC-32 generator (polynomial
`0xEDB88320`). -/
def lstep (v : Nat) : Nat :=
  if v.testBit 0 then (v >>> 1) ^^^ 0xEDB88320 else v >>> 1

def lsteps : Nat → Nat → Nat
  | 0, v => v
  | n + 1, v => lsteps n (lstep v)

/-- The CRC-32 generator for one byte index: eight division rounds. -/
def genByte (i : Nat) : Nat := lsteps 8 i

/-- The bundled table is exactly the generator's 256 values. -/
theorem table_eq_gen : ∀ i, i < 256 → comm_crc32_table.getD i 0 = genByte i := by decide

theorem lstep_xor (a b : Nat) : lstep (a ^^^ b) = lstep a ^^^ lstep b := by
  unfold lstep
  rw [Nat.testBit_xor]
  cases h1 : a.testBit 0 <;> cases h2 : b.testBit 0 <;>
    simp [h1, h2, shiftRight_xor] <;>
    (apply Nat.eq_of_testBit_eq
     intro i
     simp only [Nat.testBit_xor]
     cases (a >>> 1).testBit i <;> cases (b >>> 1).testBit i <;>
       cases (3988292384 : Nat).testBit i <;> rfl)

theorem lsteps_xor (n : Nat) : ∀ a b, lsteps n (a ^^^ b) = lsteps n a ^^^ lsteps n b := by
  induction n with
  | zero => intro a b; rfl
  | succ m ih =>
    intro a b
    show lsteps m (lstep (a ^^^ b)) = _
    rw [lstep_xor]
    exact ih _ _

theorem genByte_xor (a b : Nat) : genByte (a ^^^ b) = genByte a ^^^ genByte b :=
  lsteps_xor 8 a b

/-- Table linearity: the table of an XOR is the XOR of the tables. -/
theorem table_xor (u v : Nat) (hu : u < 256) (hv : v < 256) :
    comm_crc32_table.getD (u ^^^ v) 0 =
      comm_crc32_table.getD u 0 ^^^ comm_crc32_table.getD v 0 := by
  have huv : u ^^^ v < 256 := by
    have := Nat.xor_lt_two_pow (n := 8) (by simpa using hu) (by simpa using hv)
    simpa using this
  rw [table_eq_gen _ huv, table_eq_gen _ hu, table_eq_gen _ hv, genByte_xor]

end Comm

namespace Comm

/-- How a state difference evolves through one CRC-32 step with equal
input bytes. -/
def dstep (d : Nat) : Nat := comm_crc32_table.getD (d &&& 255) 0 ^^^ (d >>> 8)

def dstepIter : Nat → Nat → Nat
  | 0, d => d
  | n + 1, d => dstepIter n (dstep d)

theorem crc32_step_xor (a b c : Nat) :
    crc32_step a c ^^^ crc32_step b c = dstep (a ^^^ b) := by
  unfold crc32_step dstep
  rw [xor_xor_xor, ← shiftRight_xor,
    ← table_xor _ _ (and255_lt _) (and255_lt _), ← and_xor_right]
  have e : (a ^^^ c) ^^^ (b ^^^ c) = a ^^^ b := by
    rw [xor_xor_xor]
    simp
  rw [e]

theorem crc32_run_append (s : Nat) (l1 l2 : List Nat) :
    crc32_run s (l1 ++ l2) = crc32_run (crc32_run s l1) l2 :=
  List.foldl_append _ _ _ _

theorem crc32_run_xor (l : List Nat) : ∀ a b : Nat,
    crc32_run a l ^^^ crc32_run b l = dstepIter l.length (a ^^^ b) := by
  induction l with
  | nil => intro a b; rfl
  | cons c rest ih =>
    intro a b
    show crc32_run (crc32_step a c) rest ^^^ crc32_run (crc32_step b c) rest = _
    rw [ih, crc32_step_xor]
    rfl

/-- Nonzero table entries are at least `2^24` (so they cannot collide
with a shifted 32-bit state). -/
theorem table_nonzero_ge : ∀ j, j < 256 → j ≠ 0 → 16777216 ≤ comm_crc32_table.getD j 0 := by
  decide

theorem dstep_lt (d : Nat) (hd : d < U32) : dstep d < U32 :=
  xor_lt_u32 (crc32_table_lt _)
    (by rw [Nat.shiftRight_eq_div_pow]; exact Nat.lt_of_le_of_lt (Nat.div_le_self _ _) hd)

theorem dstep_ne_zero (d : Nat) (hd : d < U32) (h : d ≠ 0) : dstep d ≠ 0 := by
  intro h0
  unfold dstep at h0
  have heq : comm_crc32_table.getD (d &&& 255) 0 = d >>> 8 := by
    have := Nat.xor_eq_zero.mp h0
    exact this
  have hshift : d >>> 8 < 16777216 := by
    rw [Nat.shiftRight_eq_div_pow]
    unfold U32 at hd
    omega
  by_cases hj : d &&& 255 = 0
  · rw [hj] at heq
    have ht0 : comm_crc32_table.getD 0 0 = 0 := by decide
    rw [ht0] at heq
    have hd8 : d >>> 8 = 0 := heq.symm
    rw [Nat.shiftRight_eq_div_pow] at hd8
    have hdlt : d < 256 := by omega
    have : d &&& 255 = d := and255_eq_of_lt d hdlt
    rw [this] at hj
    exact h hj
  · have := table_nonzero_ge (d &&& 255) (and255_lt d) hj
    omega

theorem dstepIter_ne_zero (n : Nat) : ∀ d, d < U32 → d ≠ 0 →
    dstepIter n d ≠ 0 := by
  induction n with
  | zero => intro d _ h; exact h
  | succ m ih =>
    intro d hd h
    exact ih _ (dstep_lt d hd) (dstep_ne_zero d hd h)

/-- The initial state difference created by flipping bit `k` of one input
byte. -/
theorem crc32_step_flip (s b k : Nat) (hk : k < 8) :
    crc32_step s b ^^^ crc32_step s (b ^^^ (1 <<< k)) =
      comm_crc32_table.getD (1 <<< k) 0 := by
  unfold crc32_step
  rw [xor_xor_xor]
  simp only [Nat.xor_self, Nat.xor_zero]
  have hlt : 1 <<< k < 256 := by
    rw [Nat.shiftLeft_eq, Nat.one_mul]
    calc 2 ^ k ≤ 2 ^ 7 := Nat.pow_le_pow_right (by omega) (by omega)
    _ < 256 := by norm_num
  rw [← table_xor _ _ (and255_lt _) (and255_lt _), ← and_xor_right]
  have e : (s ^^^ b) ^^^ (s ^^^ (b ^^^ 1 <<< k)) = 1 <<< k := by
    rw [xor_xor_xor]
    simp [Nat.xor_cancel_left]
  rw [e, and255_eq_of_lt _ hlt]

/-- All eight single-bit table entries are nonzero. -/
theorem table_pow_ne_zero : ∀ k, k < 8 → comm_crc32_table.getD (1 <<< k) 0 ≠ 0 := by decide

/-- CRC-32 separates byte strings that differ in a single bit of a single
byte. -/
theorem comm_crc32_flip_ne (l1 l2 : List Nat) (b k : Nat) (hk : k < 8) :
    comm_crc32 (l1 ++ b :: l2) ≠ comm_crc32 (l1 ++ (b ^^^ (1 <<< k)) :: l2) := by
  intro hcontra
  unfold comm_crc32 at hcontra
  have hrun : crc32_run 0xFFFFFFFF (l1 ++ b :: l2) =
      crc32_run 0xFFFFFFFF (l1 ++ (b ^^^ (1 <<< k)) :: l2) := by
    have := congrArg (· ^^^ 0xFFFFFFFF) hcontra
    simpa [Nat.xor_assoc] using this
  have hz : crc32_run 0xFFFFFFFF (l1 ++ b :: l2) ^^^
      crc32_run 0xFFFFFFFF (l1 ++ (b ^^^ (1 <<< k)) :: l2) = 0 := by
    rw [hrun]
    simp
  rw [crc32_run_append, crc32_run_append] at hz
  have hstep : crc32_run (crc32_run 0xFFFFFFFF l1) (b :: l2) ^^^
      crc32_run (crc32_run 0xFFFFFFFF l1) ((b ^^^ (1 <<< k)) :: l2) =
      dstepIter l2.length (comm_crc32_table.getD (1 <<< k) 0) := by
    show crc32_run (crc32_step _ b) l2 ^^^ crc32_run (crc32_step _ (b ^^^ (1 <<< k))) l2 = _
    rw [crc32_run_xor, crc32_step_flip _ _ _ hk]
  rw [hstep] at hz
  exact dstepIter_ne_zero l2.length _ (crc32_table_lt _) (table_pow_ne_zero k hk) hz

end Comm

namespace Comm

/-- Flip bit `k` of byte `i`. -/
def flipBit (l : List Nat) (i k : Nat) : List Nat := l.set i (l.getD i 0 ^^^ (1 <<< k))

theorem xor_shift_ne_self (x k : Nat) : x ^^^ (1 <<< k) ≠ x := by
  intro h
  have h2 := congrArg (x ^^^ ·) h
  simp only [Nat.xor_cancel_left, Nat.xor_self] at h2
  have : (1 <<< k) ≠ 0 := by
    rw [Nat.shiftLeft_eq, Nat.one_mul]
    exact Nat.pos_iff_ne_zero.mp (Nat.pos_pow_of_pos _ (by omega))
  exact this h2

theorem set_getD_self (l : List Nat) (i : Nat) (h : i < l.length) :
    l.set i (l.getD i 0) = l := by
  rw [List.getD_eq_getElem _ _ h]
  apply List.ext_getElem
  · simp
  · intro n h1 h2
    rw [List.getElem_set]
    split
    · next he => subst he; rfl
    · rfl

theorem eq_take_cons_drop (l : List Nat) (i : Nat) (h : i < l.length) :
    l = l.take i ++ l.getD i 0 :: l.drop (i + 1) := by
  have e := List.set_eq_take_cons_drop (l.getD i 0) h
  rw [set_getD_self l i h] at e
  exact e

/-- CRC-32 separates a byte string from any single-bit corruption of it. -/
theorem comm_crc32_flipBit_ne (l : List Nat) (i k : Nat) (hi : i < l.length) (hk : k < 8) :
    comm_crc32 l ≠ comm_crc32 (flipBit l i k) := by
  unfold flipBit
  rw [List.set_eq_take_cons_drop _ hi]
  conv_lhs => rw [eq_take_cons_drop l i hi]
  exact comm_crc32_flip_ne (l.take i) (l.drop (i + 1)) (l.getD i 0) k hk

theorem byteAt_set_same (l : List Nat) (i x : Nat) (h : i < l.length) :
    byteAt (l.set i x) i = x := by
  simp [byteAt, List.getD, List.getElem?_set_self h]

theorem byteAt_set_other (l : List Nat) (i j x : Nat) (h : i ≠ j) :
    byteAt (l.set i x) j = byteAt l j := by
  simp [byteAt, List.getD, List.getElem?_set_ne h]

theorem byteAt_take (l : List Nat) (n i : Nat) (h : i < n) :
    byteAt (l.take n) i = byteAt l i := by
  simp only [byteAt, List.getD, List.get?_eq_getElem?]
  rw [List.getElem?_take_of_lt h]

end Comm

namespace Comm

/-- Decode path: a validation failure yields `INVALID`. -/
theorem decode_code_of_validate_fail (src : List Nat) (srcLen cap : Nat)
    (h32 : ¬ srcLen < 32) (hval : comm_frame_validate (parseHeader src) srcLen = -1) :
    (comm_frame_decode src srcLen cap).code = -1 := by
  unfold comm_frame_decode
  rw [if_neg h32, if_pos (by rw [hval]; decide)]

/-- Decode path: a header-CRC mismatch (after validation succeeds) yields
`CRC`. -/
theorem decode_code_of_crc_fail (src : List Nat) (srcLen cap : Nat)
    (h32 : ¬ srcLen < 32) (hval : comm_frame_validate (parseHeader src) srcLen = 0)
    (hlen : ¬ srcLen < (parseHeader src).length)
    (hcrc : comm_crc32 (src.take 24 ++ [0, 0, 0, 0]) ≠ rd32 src 24) :
    (comm_frame_decode src srcLen cap).code = -4 := by
  unfold comm_frame_decode
  rw [if_neg h32, if_neg (by rw [hval]; decide), if_neg hlen, if_pos hcrc]

/-- A magic mismatch makes validation fail. -/
theorem validate_fail_of_magic (h : FrameHeader) (srcLen : Nat)
    (hm : h.magic ≠ 0xA55A) : comm_frame_validate h srcLen = -1 := by
  unfold comm_frame_validate
  rw [if_pos hm]

/-- A version mismatch makes validation fail. -/
theorem validate_fail_of_version (h : FrameHeader) (srcLen : Nat)
    (hm : h.magic = 0xA55A) (hv : h.version ≠ 1) : comm_frame_validate h srcLen = -1 := by
  unfold comm_frame_validate
  rw [hm, if_neg (by decide), if_pos hv]

/-- A length/`received_len` disagreement makes validation fail (whichever
of the three length checks fires). -/
theorem validate_fail_of_length (h : FrameHeader) (srcLen : Nat)
    (hm : h.magic = 0xA55A) (hv : h.version = 1) (hne : srcLen ≠ h.length) :
    comm_frame_validate h srcLen = -1 := by
  unfold comm_frame_validate
  rw [hm, hv, if_neg (by decide), if_neg (by decide)]
  by_cases h1 : h.length < 32
  · rw [if_pos h1]
  · rw [if_neg h1]
    by_cases h2 : h.length > 1024
    · rw [if_pos h2]
    · rw [if_neg h2, if_pos hne]

/-- Validation succeeds on a well-formed in-range header. -/
theorem validate_ok (h : FrameHeader) (srcLen : Nat)
    (hm : h.magic = 0xA55A) (hv : h.version = 1) (hl : h.length = srcLen)
    (hge : 32 ≤ srcLen) (hle : srcLen ≤ 1024) :
    comm_frame_validate h srcLen = 0 := by
  unfold comm_frame_validate
  rw [hm, hv, hl, if_neg (by decide), if_neg (by decide), if_neg (by omega),
    if_neg (by omega), if_neg (by omega)]

end Comm

namespace Comm

/-- Claim C5 (amended): flipping one bit `k < 8` of one byte `i ≤ 24` of a
valid encoded frame makes `comm_frame_decode` fail, but not always with the
claimed CRC error: bytes 0–2 and 4–7 hold the magic, version and length
fields, so `comm_frame_validate` rejects the corrupted frame first with
`INVALID` (−1); only for byte 3, bytes 8–23 (covered by `header_crc` alone)
and byte 24 (low byte of the stored CRC) does the decoder reach the CRC
comparison and return −4. -/
theorem decode_rejects_header_bit_flip (payload : List Nat) (header : FrameHeader)
    (i k cap : Nat) (hP : payload.length ≤ 992) (hw : header.Wf)
    (hm : header.magic = 0xA55A) (hv : header.version = 1)
    (hi : i ≤ 24) (hk : k < 8) :
    (comm_frame_decode
        (flipBit (comm_frame_encode (32 + payload.length) payload header).2 i k)
        (32 + payload.length) cap).code =
      (if i = 3 ∨ 8 ≤ i then -4 else -1) := by
  rw [comm_frame_encode_eq payload header _ (Nat.le_refl _)]
  have hparse := parseHeader_headerBytes (encHdr payload header) payload
    (encHdr_wf payload header hw hP)
  set F := headerBytes (encHdr payload header) ++ payload with hFdef
  have hflen : F.length = 32 + payload.length := by
    rw [hFdef, List.length_append, headerBytes_length]
  have h32 : ¬ (32 + payload.length < 32) := by omega
  have hilt : i < F.length := by omega
  have hF0 : rd16 F 0 = 0xA55A := by
    have e : rd16 F 0 = header.magic := congrArg FrameHeader.magic hparse
    rw [e, hm]
  have hF2 : byteAt F 2 = 1 := by
    have e : byteAt F 2 = header.version := congrArg FrameHeader.version hparse
    rw [e, hv]
  have hF4 : rd32 F 4 = 32 + payload.length := congrArg FrameHeader.length hparse
  have hF24 : rd32 F 24 = (encHdr payload header).header_crc :=
    congrArg FrameHeader.header_crc hparse
  have hcalcF : comm_crc32 (F.take 24 ++ [0, 0, 0, 0]) =
      (encHdr payload header).header_crc := by
    rw [hFdef, headerBytes_take_24]
    have hregion : headerFields24 (encHdr payload header) ++ ([0, 0, 0, 0] : List Nat) =
        (headerBytes (encHdr0 payload header)).take 28 := by
      rw [headerBytes_take_28]
      congr 1
      simp [le32, encHdr0]
    rw [hregion]
    rfl
  unfold flipBit
  generalize hxdef : F.getD i 0 ^^^ 1 <<< k = x
  have hxne : x ≠ byteAt F i := by
    rw [← hxdef]
    exact xor_shift_ne_self (byteAt F i) k
  by_cases hgr : i = 3 ∨ 8 ≤ i
  · rw [if_pos hgr]
    -- validation still succeeds: the magic, version and length bytes are
    -- untouched
    have hmagic' : (parseHeader (F.set i x)).magic = 0xA55A := by
      show rd16 (F.set i x) 0 = 0xA55A
      simp only [rd16, Nat.reduceAdd]
      rw [byteAt_set_other F i 0 x (by omega), byteAt_set_other F i 1 x (by omega)]
      simp only [rd16, Nat.reduceAdd] at hF0
      exact hF0
    have hversion' : (parseHeader (F.set i x)).version = 1 := by
      show byteAt (F.set i x) 2 = 1
      rw [byteAt_set_other F i 2 x (by omega)]
      exact hF2
    have hlength' : (parseHeader (F.set i x)).length = 32 + payload.length := by
      show rd32 (F.set i x) 4 = 32 + payload.length
      simp only [rd32, Nat.reduceAdd]
      rw [byteAt_set_other F i 4 x (by omega), byteAt_set_other F i 5 x (by omega),
        byteAt_set_other F i 6 x (by omega), byteAt_set_other F i 7 x (by omega)]
      simp only [rd32, Nat.reduceAdd] at hF4
      exact hF4
    apply decode_code_of_crc_fail _ _ _ h32
      (validate_ok _ _ hmagic' hversion' hlength' (by omega) (by omega))
      (by rw [hlength']; omega)
    by_cases h24 : i = 24
    · -- the stored CRC itself is corrupted; the recomputed region is not
      subst h24
      have htake : (F.set 24 x).take 24 = F.take 24 := by
        rw [List.set_take]
        apply List.set_eq_of_length_le
        rw [List.length_take]
        omega
      rw [htake, hcalcF]
      simp only [rd32, Nat.reduceAdd]
      rw [byteAt_set_same F 24 x (by omega), byteAt_set_other F 24 25 x (by omega),
        byteAt_set_other F 24 26 x (by omega), byteAt_set_other F 24 27 x (by omega)]
      simp only [rd32, Nat.reduceAdd] at hF24
      intro hcontra
      rw [← hF24] at hcontra
      have hx24 : x = byteAt F 24 := by omega
      exact hxne hx24
    · -- a byte under the CRC region is corrupted: the recomputed CRC moves
      have hi23 : i < 24 := by omega
      have htklen : (F.take 24).length = 24 := by rw [List.length_take]; omega
      have htake : (F.set i x).take 24 = (F.take 24).set i x := List.set_take
      rw [htake]
      have hset : (F.take 24).set i x ++ ([0, 0, 0, 0] : List Nat) =
          flipBit (F.take 24 ++ [0, 0, 0, 0]) i k := by
        unfold flipBit
        have hby : (F.take 24 ++ ([0, 0, 0, 0] : List Nat)).getD i 0 = F.getD i 0 := by
          rw [List.getD_append _ _ _ _ (by omega)]
          exact byteAt_take F 24 i hi23
        rw [hby, hxdef, List.set_append_left _ _ (by omega)]
      rw [hset]
      have hstored : rd32 (F.set i x) 24 = comm_crc32 (F.take 24 ++ [0, 0, 0, 0]) := by
        simp only [rd32, Nat.reduceAdd]
        rw [byteAt_set_other F i 24 x (by omega), byteAt_set_other F i 25 x (by omega),
          byteAt_set_other F i 26 x (by omega), byteAt_set_other F i 27 x (by omega)]
        simp only [rd32, Nat.reduceAdd] at hF24
        rw [hF24, hcalcF]
      rw [hstored]
      have hlen28 : i < (F.take 24 ++ ([0, 0, 0, 0] : List Nat)).length := by
        rw [List.length_append, htklen]
        omega
      exact fun hcon =>
        comm_crc32_flipBit_ne (F.take 24 ++ [0, 0, 0, 0]) i k hlen28 hk hcon.symm
  · rw [if_neg hgr]
    have hub : i ≤ 7 := by omega
    apply decode_code_of_validate_fail _ _ _ h32
    simp only [rd16, Nat.reduceAdd] at hF0
    simp only [rd32, Nat.reduceAdd] at hF4
    interval_cases i
    · -- byte 0: low magic byte
      apply validate_fail_of_magic
      show rd16 (F.set 0 x) 0 ≠ 0xA55A
      simp only [rd16, Nat.reduceAdd]
      rw [byteAt_set_same F 0 x (by omega), byteAt_set_other F 0 1 x (by omega)]
      intro hcon
      exact hxne (by omega)
    · -- byte 1: high magic byte
      apply validate_fail_of_magic
      show rd16 (F.set 1 x) 0 ≠ 0xA55A
      simp only [rd16, Nat.reduceAdd]
      rw [byteAt_set_other F 1 0 x (by omega), byteAt_set_same F 1 x (by omega)]
      intro hcon
      exact hxne (by omega)
    · -- byte 2: version
      apply validate_fail_of_version
      · show rd16 (F.set 2 x) 0 = 0xA55A
        simp only [rd16, Nat.reduceAdd]
        rw [byteAt_set_other F 2 0 x (by omega), byteAt_set_other F 2 1 x (by omega)]
        exact hF0
      · show byteAt (F.set 2 x) 2 ≠ 1
        rw [byteAt_set_same F 2 x (by omega)]
        rw [hF2] at hxne
        exact hxne
    · exact absurd (Or.inl rfl) hgr
    · -- byte 4: length bits 0..7
      apply validate_fail_of_length
      · show rd16 (F.set 4 x) 0 = 0xA55A
        simp only [rd16, Nat.reduceAdd]
        rw [byteAt_set_other F 4 0 x (by omega), byteAt_set_other F 4 1 x (by omega)]
        exact hF0
      · show byteAt (F.set 4 x) 2 = 1
        rw [byteAt_set_other F 4 2 x (by omega)]
        exact hF2
      · show 32 + payload.length ≠ rd32 (F.set 4 x) 4
        simp only [rd32, Nat.reduceAdd]
        rw [byteAt_set_same F 4 x (by omega), byteAt_set_other F 4 5 x (by omega),
          byteAt_set_other F 4 6 x (by omega), byteAt_set_other F 4 7 x (by omega)]
        intro hcon
        exact hxne (by omega)
    · -- byte 5: length bits 8..15
      apply validate_fail_of_length
      · show rd16 (F.set 5 x) 0 = 0xA55A
        simp only [rd16, Nat.reduceAdd]
        rw [byteAt_set_other F 5 0 x (by omega), byteAt_set_other F 5 1 x (by omega)]
        exact hF0
      · show byteAt (F.set 5 x) 2 = 1
        rw [byteAt_set_other F 5 2 x (by omega)]
        exact hF2
      · show 32 + payload.length ≠ rd32 (F.set 5 x) 4
        simp only [rd32, Nat.reduceAdd]
        rw [byteAt_set_other F 5 4 x (by omega), byteAt_set_same F 5 x (by omega),
          byteAt_set_other F 5 6 x (by omega), byteAt_set_other F 5 7 x (by omega)]
        intro hcon
        exact hxne (by omega)
    · -- byte 6: length bits 16..23
      apply validate_fail_of_length
      · show rd16 (F.set 6 x) 0 = 0xA55A
        simp only [rd16, Nat.reduceAdd]
        rw [byteAt_set_other F 6 0 x (by omega), byteAt_set_other F 6 1 x (by omega)]
        exact hF0
      · show byteAt (F.set 6 x) 2 = 1
        rw [byteAt_set_other F 6 2 x (by omega)]
        exact hF2
      · show 32 + payload.length ≠ rd32 (F.set 6 x) 4
        simp only [rd32, Nat.reduceAdd]
        rw [byteAt_set_other F 6 4 x (by omega), byteAt_set_other F 6 5 x (by omega),
          byteAt_set_same F 6 x (by omega), byteAt_set_other F 6 7 x (by omega)]
        intro hcon
        exact hxne (by omega)
    · -- byte 7: length bits 24..31
      apply validate_fail_of_length
      · show rd16 (F.set 7 x) 0 = 0xA55A
        simp only [rd16, Nat.reduceAdd]
        rw [byteAt_set_other F 7 0 x (by omega), byteAt_set_other F 7 1 x (by omega)]
        exact hF0
      · show byteAt (F.set 7 x) 2 = 1
        rw [byteAt_set_other F 7 2 x (by omega)]
        exact hF2
      · show 32 + payload.length ≠ rd32 (F.set 7 x) 4
        simp only [rd32, Nat.reduceAdd]
        rw [byteAt_set_other F 7 4 x (by omega), byteAt_set_other F 7 5 x (by omega),
          byteAt_set_other F 7 6 x (by omega), byteAt_set_same F 7 x (by omega)]
        intro hcon
        exact hxne (by omega)


/-- Counterexample for C5 as stated: flipping bit 0 of byte 0 (the low magic
byte) of a valid encoded frame makes `comm_frame_decode` return `INVALID`
(−1) from the magic check in `comm_frame_validate`, not the claimed CRC
error (−4). -/
theorem decode_header_bit_flip_cex :
    (comm_frame_decode
        (flipBit (comm_frame_encode (32 + ([1, 2, 3] : List Nat).length) [1, 2, 3]
          (seqHeader 7)).2 0 0)
        (32 + ([1, 2, 3] : List Nat).length) 8).code = -1 ∧ ((-1 : Int) ≠ -4) := by
  decide

/-- Witness for C5 (amended): flipping bit 3 of byte 10 of a concrete valid
frame is rejected with the CRC error −4. -/
theorem decode_rejects_header_bit_flip_witness :
    ([1, 2, 3] : List Nat).length ≤ 992 ∧ (seqHeader 7).Wf ∧
    (seqHeader 7).magic = 0xA55A ∧ (seqHeader 7).version = 1 ∧
    (10 : Nat) ≤ 24 ∧ (3 : Nat) < 8 ∧
    (comm_frame_decode
        (flipBit (comm_frame_encode (32 + ([1, 2, 3] : List Nat).length) [1, 2, 3]
          (seqHeader 7)).2 10 3)
        (32 + ([1, 2, 3] : List Nat).length) 8).code =
      (if (10 : Nat) = 3 ∨ 8 ≤ (10 : Nat) then -4 else -1) :=
  ⟨by decide, by decide, by decide, by decide, by decide, by decide,
   decode_rejects_header_bit_flip [1, 2, 3] (seqHeader 7) 10 3 8 (by decide) (by decide)
     (by decide) (by decide) (by decide) (by decide)⟩

end Comm
